import Mathlib

/-!
# p5: numMixer, dubMix, multiMix

A shallow embedding of the mixer classes of the repository and the properties
of its specification.

Modelling conventions.

* `int` members are mathematical integers (`Int`).  Signed overflow is
  undefined behaviour in C++, so the embedding describes executions in which
  the counters stay inside the range of `int`.  The C++ remainder `a % b`
  truncates towards zero and is `Int.tmod`.
* `std::vector<int>` is `List Int`.
* The static engine `_eng` is a tape: the list of raw values the engine has
  yet to produce.  Every function that advances the engine takes the tape and
  returns what is left of it.  A tape is a finite prefix of the engine's
  output, so it also bounds how long a rejection loop is followed: when the
  tape ends before a call has returned the outcome is `Run.starved`.
* Indexing a vector out of bounds is `Run.undef`.
-/

namespace P5

/-- Outcome of running a member function against a finite tape of engine draws. -/
inductive Run (α : Type) where
  /-- The call returned. -/
  | done (a : α)
  /-- The call ran into undefined behaviour (a vector indexed out of bounds). -/
  | undef
  /-- The tape ended before the call returned. -/
  | starved
deriving DecidableEq

/-- Sequencing of two runs: the second one starts from what the first returned. -/
def Run.bind {α β : Type} : Run α → (α → Run β) → Run β
  | .done a, f => f a
  | .undef, _ => .undef
  | .starved, _ => .starved

/-- One call `distr(_eng)` of a `std::uniform_int_distribution<>(lo, hi)`: the raw
value `raw` read from the tape stands for the result `lo + raw mod (hi - lo + 1)`,
a value of the closed interval from `lo` to `hi`.  Every sequence of results in
range is the image of some tape (take each raw value to be the result minus
`lo`), so a statement about all tapes is a statement about all sequences of
results. -/
def distr (lo hi : Nat) (raw : Nat) : Nat :=
  lo + raw % (hi - lo + 1)

/-- The enumeration `numMixer::OutputController`. -/
inductive OutputController where
  | MIX
  | EVEN
  | ODD
deriving DecidableEq

/-- The data members of `class numMixer` (the static engine is passed separately). -/
structure numMixer where
  stateChangeCount : Int
  countDown : Int
  evenValid : Bool
  oddValid : Bool
  dataset : List Int
  controllerState : OutputController
deriving DecidableEq

/-- The dataset the no-arg constructor builds: `_dataset[i] = i + 1` for `i < 100`. -/
def defaultDataset : List Int :=
  (List.range 100).map (fun (i : Nat) => (i : Int) + 1)

/-- The constructor `numMixer::numMixer()`; one draw of the engine sets the countdown. -/
def numMixer.mkDefault : List Nat → Run (numMixer × List Nat)
  | [] => .starved
  | raw :: eng =>
    .done ({ evenValid := true
             oddValid := true
             stateChangeCount := 0
             countDown := (distr 10 20 raw : Nat)
             dataset := defaultDataset
             controllerState := .MIX }, eng)

/-- One turn of the validation loop of `numMixer::numMixer(std::vector<int>)`,
on the pair `(_evenValid, _oddValid)`. -/
def validateStep (flags : Bool × Bool) (val : Int) : Bool × Bool :=
  if val.tmod 2 ≠ 0 then (flags.1, true) else (true, flags.2)

/-- The constructor `numMixer::numMixer(std::vector<int> dataset)`. -/
def numMixer.mkDataset (dataset : List Int) : List Nat → Run (numMixer × List Nat)
  | [] => .starved
  | raw :: eng =>
    let flags := dataset.foldl validateStep (false, false)
    .done ({ evenValid := flags.1
             oddValid := flags.2
             stateChangeCount := 0
             countDown := (distr 10 20 raw : Nat)
             dataset := dataset
             controllerState := .MIX }, eng)

/-- The accessor `numMixer::isActive`. -/
def numMixer.isActive (m : numMixer) : Bool :=
  decide (m.countDown > 0)

/-- The function `numMixer::checkStateValid`. -/
def numMixer.checkStateValid (m : numMixer) : Bool :=
  match m.controllerState with
  | .MIX => true
  | .EVEN => m.evenValid
  | .ODD => m.oddValid

/-- The mutator `numMixer::setControllerState`. -/
def numMixer.setControllerState (m : numMixer) (state : OutputController) : numMixer :=
  if m.controllerState ≠ state then
    { m with controllerState := state, stateChangeCount := m.stateChangeCount + 1 }
  else m

/-- The loops `while (again (_dataset[i])) { i = distr(_eng); }  return _dataset[i];`
of `numMixer::genRandNum`, entered with index `i`. -/
def redraw (dataset : List Int) (again : Int → Bool) : Nat → List Nat → Run (Int × List Nat)
  | i, [] =>
    match dataset[i]? with
    | none => .undef
    | some v => if again v then .starved else .done (v, [])
  | i, raw :: eng =>
    match dataset[i]? with
    | none => .undef
    | some v =>
      if again v then redraw dataset again (distr 0 (dataset.length - 1) raw) eng
      else .done (v, raw :: eng)

/-- The loop test of the `EVEN` case: `_dataset[i] % 2 != 0`. -/
def againEven (v : Int) : Bool := v.tmod 2 != 0

/-- The loop test of the `ODD` case: `_dataset[i] % 2 != 1`. -/
def againOdd (v : Int) : Bool := v.tmod 2 != 1

/-- The function `numMixer::genRandNum`.  With an empty dataset `upperBound` is `-1`:
the distribution is ill-formed and every index is out of bounds. -/
def numMixer.genRandNum (m : numMixer) (eng : List Nat) : Run (Int × List Nat) :=
  if m.dataset.length = 0 then .undef
  else
    match eng with
    | [] => .starved
    | raw :: eng =>
      let i := distr 0 (m.dataset.length - 1) raw
      match m.controllerState with
      | .MIX =>
        match m.dataset[i]? with
        | none => .undef
        | some v => .done (v, eng)
      | .EVEN => redraw m.dataset againEven i eng
      | .ODD => redraw m.dataset againOdd i eng

/-- The loop `for (auto& val : returnValues) { val = genRandNum(); }` of `numMixer::ping`. -/
def numMixer.fill (m : numMixer) : List Int → List Nat → Run (List Int × List Nat)
  | [], eng => .done ([], eng)
  | _ :: vals, eng =>
    (m.genRandNum eng).bind fun r =>
      (numMixer.fill m vals r.2).bind fun rs =>
        .done (r.1 :: rs.1, rs.2)

/-- The function `numMixer::ping`: the returned flag, the mixer afterwards, the
buffer afterwards and the rest of the tape. -/
def numMixer.ping (m : numMixer) (returnValues : List Int) (eng : List Nat) :
    Run (Bool × numMixer × List Int × List Nat) :=
  if m.isActive && m.checkStateValid then
    (m.fill returnValues eng).bind fun r =>
      .done (true, { m with countDown := m.countDown - 1 }, r.1, r.2)
  else .done (false, m, returnValues, eng)

/-- The operator `numMixer::operator+=`. -/
def numMixer.addAssign (m obj : numMixer) : numMixer :=
  { m with
    stateChangeCount := m.stateChangeCount + obj.stateChangeCount
    countDown := m.countDown + obj.countDown
    evenValid := m.evenValid || obj.evenValid
    oddValid := m.oddValid || obj.oddValid
    dataset := m.dataset ++ obj.dataset }

/-- A call a client can make on a numMixer through its public interface. -/
inductive Call where
  | ping (returnValues : List Int)
  | setControllerState (state : OutputController)
deriving DecidableEq

/-- Runs a sequence of calls on one numMixer; returns the mixer afterwards, the
flags the pings returned (in call order) and the rest of the tape. -/
def runCalls : numMixer → List Call → List Nat → Run (numMixer × List Bool × List Nat)
  | m, [], eng => .done (m, [], eng)
  | m, .ping returnValues :: calls, eng =>
    (m.ping returnValues eng).bind fun r =>
      (runCalls r.2.1 calls r.2.2.2).bind fun rs =>
        .done (rs.1, r.1 :: rs.2.1, rs.2.2)
  | m, .setControllerState state :: calls, eng =>
    runCalls (m.setControllerState state) calls eng

/-- The loop test `numMixer::genRandNum` applies to a drawn value in each
controller state; under `MIX` the first drawn value is returned. -/
def againOf : OutputController → Int → Bool
  | .MIX, _ => false
  | .EVEN, v => againEven v
  | .ODD, v => againOdd v

/-- Whether a raw draw selects an index of the dataset whose value ends the
loop with test `again`. -/
def accepts (dataset : List Int) (again : Int → Bool) (raw : Nat) : Bool :=
  match dataset[distr 0 (dataset.length - 1) raw]? with
  | none => false
  | some v => !again v

/-- The number of draws on the tape that end a loop with test `again`. -/
def accepted (dataset : List Int) (again : Int → Bool) (eng : List Nat) : Nat :=
  (eng.filter (accepts dataset again)).length

/-- The parity flags reflect the dataset: `evenValid` iff the dataset holds an even
value, `oddValid` iff it holds an odd value. -/
def flagsReflect (m : numMixer) : Prop :=
  (m.evenValid = true ↔ ∃ x ∈ m.dataset, Even x) ∧
    (m.oddValid = true ↔ ∃ x ∈ m.dataset, Odd x)

/-- The object `numMixer({1})` when the engine's next raw value is 0. -/
def oddOnly : numMixer :=
  { stateChangeCount := 0, countDown := 10, evenValid := false, oddValid := true,
    dataset := [1], controllerState := .MIX }

/-- The object `numMixer({2})` when the engine's next raw value is 0. -/
def evenOnly : numMixer :=
  { stateChangeCount := 0, countDown := 10, evenValid := true, oddValid := false,
    dataset := [2], controllerState := .MIX }

/-- The object `numMixer({1, 2})` when the engine's next raw value is 0. -/
def pairMixer : numMixer :=
  { stateChangeCount := 0, countDown := 10, evenValid := true, oddValid := true,
    dataset := [1, 2], controllerState := .MIX }

/-! ## dubMix -/

/-- The data members of `class dubMix`. -/
structure dubMix where
  ctl : Int
  x : numMixer
  z : numMixer
deriving DecidableEq

/-- The constructor `dubMix::dubMix()`: `_x` and `_z` are default-constructed in
declaration order, then pinned to `EVEN` and `ODD`. -/
def dubMix.mkDefault (eng : List Nat) : Run (dubMix × List Nat) :=
  (numMixer.mkDefault eng).bind fun rx =>
    (numMixer.mkDefault rx.2).bind fun rz =>
      .done ({ ctl := 3
               x := rx.1.setControllerState .EVEN
               z := rz.1.setControllerState .ODD }, rz.2)

/-- The value an `unsigned int` has once stored in an `int`. -/
def toInt (val : Nat) : Int :=
  if val % 2 ^ 32 < 2 ^ 31 then ((val % 2 ^ 32 : Nat) : Int)
  else ((val % 2 ^ 32 : Nat) : Int) - 2 ^ 32

/-- The mutator `dubMix::setCtl`. -/
def dubMix.setCtl (d : dubMix) (val : Nat) : dubMix :=
  { d with ctl := toInt val }

/-- The inner loop `for (int j = i - 1; j >= 0; --j)` of `dubMix::purgeDuplicates`,
with `k` positions left to scan (the next one is `j = k - 1`): whether it reaches
the `break`, that is whether some `arr[j]` with `j < k` equals `arr[i]`. -/
def dubMix.findEarlier (arr : List Int) (i : Nat) : Nat → Bool
  | 0 => false
  | j + 1 => if arr.getD j 0 = arr.getD i 0 then true else dubMix.findEarlier arr i j

/-- The outer loop `for (int i = arr.size() - 1; i >= 1; --i)` of
`dubMix::purgeDuplicates`, entered at index `i` with the current `arr` and
`newSize`. -/
def dubMix.purgeLoop : Nat → List Int → Nat → List Int × Nat
  | 0, arr, newSize => (arr, newSize)
  | i + 1, arr, newSize =>
    if dubMix.findEarlier arr (i + 1) (i + 1) then
      dubMix.purgeLoop i (arr.set (i + 1) (arr.getD (newSize - 1) 0)) (newSize - 1)
    else dubMix.purgeLoop i arr newSize

/-- The function `dubMix::purgeDuplicates`; the last step is `arr.resize(newSize)`. -/
def dubMix.purgeDuplicates (arr : List Int) : List Int :=
  let r := dubMix.purgeLoop (arr.length - 1) arr arr.length
  r.1.take r.2

/-- The function `dubMix::ctl1`; the flag returned by the ping of `_x` is dropped. -/
def dubMix.ctl1 (d : dubMix) (size : Nat) (eng : List Nat) : Run (List Int × dubMix × List Nat) :=
  (d.x.ping (List.replicate size 0) eng).bind fun rx =>
    .done (rx.2.2.1, { d with x := rx.2.1 }, rx.2.2.2)

/-- The function `dubMix::ctl2`; the flag returned by the ping of `_z` is dropped. -/
def dubMix.ctl2 (d : dubMix) (size : Nat) (eng : List Nat) : Run (List Int × dubMix × List Nat) :=
  (d.z.ping (List.replicate size 0) eng).bind fun rz =>
    .done (rz.2.2.1, { d with z := rz.2.1 }, rz.2.2.2)

/-- The loop of `dubMix::ctl3` that fills `mixedOut`: index `i` takes `xOut[i / 2]`
when `i % 2 == 0` and `zOut[i / 2]` otherwise. -/
def dubMix.mixedOut (size : Nat) (xOut zOut : List Int) : List Int :=
  (List.range (2 * size)).map fun (i : Nat) =>
    if i % 2 = 0 then xOut.getD (i / 2) 0 else zOut.getD (i / 2) 0

/-- The function `dubMix::ctl3`. -/
def dubMix.ctl3 (d : dubMix) (size : Nat) (eng : List Nat) : Run (List Int × dubMix × List Nat) :=
  (d.x.ping (List.replicate size 0) eng).bind fun rx =>
    (d.z.ping (List.replicate size 0) rx.2.2.2).bind fun rz =>
      .done (dubMix.mixedOut size rx.2.2.1 rz.2.2.1, { d with x := rx.2.1, z := rz.2.1 },
        rz.2.2.2)

/-- The function `dubMix::ctl4`; the two copy loops write the purged `xOut` and
then the purged `zOut` into `mixedOut`. -/
def dubMix.ctl4 (d : dubMix) (size : Nat) (eng : List Nat) : Run (List Int × dubMix × List Nat) :=
  (d.x.ping (List.replicate size 0) eng).bind fun rx =>
    (d.z.ping (List.replicate size 0) rx.2.2.2).bind fun rz =>
      .done (dubMix.purgeDuplicates rx.2.2.1 ++ dubMix.purgeDuplicates rz.2.2.1,
        { d with x := rx.2.1, z := rz.2.1 }, rz.2.2.2)

/-- The function `dubMix::ping`: the returned vector, the dubMix afterwards and the
rest of the tape. -/
def dubMix.ping (d : dubMix) (eng : List Nat) : Run (List Int × dubMix × List Nat) :=
  if d.ctl = 1 then d.ctl1 10 eng
  else if d.ctl = 2 then d.ctl2 10 eng
  else if d.ctl = 3 then d.ctl3 10 eng
  else if d.ctl = 4 then d.ctl4 10 eng
  else .done ([], d, eng)

/-- The operator `dubMix::operator+=`. -/
def dubMix.addAssign (d obj : dubMix) : dubMix :=
  { d with x := d.x.addAssign obj.x, z := d.z.addAssign obj.z }

/-- A call a client can make on a dubMix through its public interface. -/
inductive DubCall where
  | setCtl (val : Nat)
  | ping
  | addAssign (obj : dubMix)
deriving DecidableEq

/-- Whether a call is an `operator+=`. -/
def DubCall.isAddAssign : DubCall → Bool
  | .addAssign _ => true
  | _ => false

/-- Runs a sequence of calls on one dubMix; returns the dubMix afterwards, the
vectors the pings returned (in call order) and the rest of the tape. -/
def runDubCalls : dubMix → List DubCall → List Nat → Run (dubMix × List (List Int) × List Nat)
  | d, [], eng => .done (d, [], eng)
  | d, .setCtl val :: calls, eng => runDubCalls (d.setCtl val) calls eng
  | d, .ping :: calls, eng =>
    (d.ping eng).bind fun r =>
      (runDubCalls r.2.1 calls r.2.2).bind fun rs =>
        .done (rs.1, r.1 :: rs.2.1, rs.2.2)
  | d, .addAssign obj :: calls, eng => runDubCalls (d.addAssign obj) calls eng

/-- The class invariant of dubMix: `_x` is pinned to `EVEN` and `_z` to `ODD`, the
parity each one serves is valid, and both datasets hold values from 1 to 100. -/
def dubMix.inv (d : dubMix) : Prop :=
  (d.x.controllerState = .EVEN ∧ d.x.evenValid = true ∧ ∀ v ∈ d.x.dataset, 1 ≤ v ∧ v ≤ 100) ∧
    (d.z.controllerState = .ODD ∧ d.z.oddValid = true ∧ ∀ v ∈ d.z.dataset, 1 ≤ v ∧ v ≤ 100)

/-- The dubMix objects a program can hold: built by the constructor and changed
by setCtl, ping and operator+=. -/
inductive dubMix.Reachable : dubMix → Prop where
  | mkDefault (eng rest : List Nat) (d : dubMix) :
      dubMix.mkDefault eng = .done (d, rest) → dubMix.Reachable d
  | setCtl (d : dubMix) (val : Nat) : dubMix.Reachable d → dubMix.Reachable (d.setCtl val)
  | ping (d d' : dubMix) (eng rest : List Nat) (out : List Int) :
      dubMix.Reachable d → d.ping eng = .done (out, d', rest) → dubMix.Reachable d'
  | addAssign (d obj : dubMix) :
      dubMix.Reachable d → dubMix.Reachable obj → dubMix.Reachable (d.addAssign obj)

/-- The dubMix the constructor builds when the next two raw values of the engine
are 0: both countdowns are 10. -/
def freshDub : dubMix :=
  ⟨3, ⟨1, 10, true, true, defaultDataset, .EVEN⟩, ⟨1, 10, true, true, defaultDataset, .ODD⟩⟩

/-- The dubMix `freshDub` becomes after ten pings under ctl 2 and `setCtl(3)`: the
countdown of `_z` is 0. -/
def spentDub : dubMix :=
  ⟨3, ⟨1, 10, true, true, defaultDataset, .EVEN⟩, ⟨1, 0, true, true, defaultDataset, .ODD⟩⟩

/-- Ten raw draws that select the values 2, 4, ..., 20 of the default dataset. -/
def evenDraws : List Nat := [1, 3, 5, 7, 9, 11, 13, 15, 17, 19]

/-- Ten raw draws that select the values 1, 3, ..., 19 of the default dataset. -/
def oddDraws : List Nat := [0, 2, 4, 6, 8, 10, 12, 14, 16, 18]

/-! ## multiMix -/

/-- The table `multiMix::_PRIME_NUMBERS`. -/
def PRIME_NUMBERS : List Int :=
  [2, 3, 5, 7, 11, 13, 17, 19, 23, 29, 31, 37, 41, 43, 47, 53, 59, 61, 67, 71, 73, 79, 83, 89, 97]

/-- The library function `std::binary_search` on a range sorted in increasing
order: whether the range holds an element equal to `n`. -/
def binary_search (range : List Int) (n : Int) : Bool :=
  range.contains n

/-- The data members of `class multiMix`; the stack is listed from its top. -/
structure multiMix where
  numMixerStack : List numMixer
deriving DecidableEq

/-- The function `multiMix::isPrime`. -/
def multiMix.isPrime (n : Int) : Bool :=
  binary_search PRIME_NUMBERS n

/-- The loop `for (int i = arr.size() - 1; i >= 0; --i)` of
`multiMix::purgePrimeNumbers`, with `k` indices left (the next one is `i = k - 1`). -/
def multiMix.purgePrimesLoop : Nat → List Int → Nat → List Int × Nat
  | 0, arr, newSize => (arr, newSize)
  | i + 1, arr, newSize =>
    if multiMix.isPrime (arr.getD i 0) then
      multiMix.purgePrimesLoop i (arr.set i (arr.getD (newSize - 1) 0)) (newSize - 1)
    else multiMix.purgePrimesLoop i arr newSize

/-- The function `multiMix::purgePrimeNumbers`; the last step is `arr.resize(newSize)`. -/
def multiMix.purgePrimeNumbers (arr : List Int) : List Int :=
  let r := multiMix.purgePrimesLoop arr.length arr arr.length
  r.1.take r.2

/-- The function `multiMix::generateDataset`, drawing from the engine of multiMix. -/
def multiMix.generateDataset : Nat → List Nat → Run (List Int × List Nat)
  | 0, eng => .done ([], eng)
  | _ + 1, [] => .starved
  | size + 1, raw :: eng =>
    (multiMix.generateDataset size eng).bind fun r =>
      .done (((distr 2 100 raw : Nat) : Int) :: r.1, r.2)

/-- The mutator `multiMix::addNumMixers`: `mEng` is the tape of the engine of
multiMix (the datasets), `eng` the tape of the engine of numMixer (the
countdowns). -/
def multiMix.addNumMixers : Nat → multiMix → List Nat → List Nat →
    Run (multiMix × List Nat × List Nat)
  | 0, mm, mEng, eng => .done (mm, mEng, eng)
  | count + 1, mm, mEng, eng =>
    (multiMix.generateDataset 30 mEng).bind fun g =>
      (numMixer.mkDataset g.1 eng).bind fun c =>
        multiMix.addNumMixers count { numMixerStack := c.1 :: mm.numMixerStack } g.2 c.2

/-- The operator `multiMix::operator+=(const numMixer&)`. -/
def multiMix.addAssignMixer (mm : multiMix) (obj : numMixer) : multiMix :=
  { numMixerStack := obj :: mm.numMixerStack }

/-- One case of the switch of `multiMix::ping`: set the state of the top mixer,
ping it into `returnset` and drop the flag it returns. -/
def multiMix.pingTop (top : numMixer) (below : List numMixer) (state : OutputController)
    (eng : List Nat) : Run (List Int × multiMix × List Nat) :=
  ((top.setControllerState state).ping (List.replicate 10 0) eng).bind fun r =>
    .done (r.2.2.1, { numMixerStack := r.2.1 :: below }, r.2.2.2)

/-- The function `multiMix::ping`.  The switch is on `size() - 1 % 3`, where `%`
binds tighter than `-`.  On an empty stack `top()` is undefined. -/
def multiMix.ping (mm : multiMix) (eng : List Nat) : Run (List Int × multiMix × List Nat) :=
  match mm.numMixerStack with
  | [] => .undef
  | top :: below =>
    match (top :: below).length - (1 % 3) with
    | 0 =>
      (multiMix.pingTop top below .MIX eng).bind fun r =>
        .done (multiMix.purgePrimeNumbers r.1, r.2.1, r.2.2)
    | 1 => multiMix.pingTop top below .EVEN eng
    | 2 => multiMix.pingTop top below .ODD eng
    | _ => .done ([], mm, eng)

/-- The numMixer `addNumMixers` pushes when the engine of multiMix yields 30 times
the value 2 and the next raw value of the engine of numMixer is 0. -/
def allTwos : numMixer :=
  { stateChangeCount := 0, countDown := 10, evenValid := true, oddValid := false,
    dataset := List.replicate 30 2, controllerState := .MIX }

/-! ## Operators and accessors -/

/-- The operator `operator==` on numMixer: all data members are compared. -/
def numMixer.eq (lhs rhs : numMixer) : Bool :=
  lhs.stateChangeCount == rhs.stateChangeCount &&
    lhs.countDown == rhs.countDown &&
    lhs.evenValid == rhs.evenValid &&
    lhs.oddValid == rhs.oddValid &&
    lhs.dataset == rhs.dataset &&
    lhs.controllerState == rhs.controllerState

/-- The operator `operator<` on numMixer. -/
def numMixer.lt (lhs rhs : numMixer) : Bool :=
  decide (lhs.countDown < rhs.countDown)

/-- The operator `operator>` on numMixer. -/
def numMixer.gt (lhs rhs : numMixer) : Bool :=
  numMixer.lt rhs lhs

/-- The operator `operator<=` on numMixer. -/
def numMixer.le (lhs rhs : numMixer) : Bool :=
  !numMixer.gt lhs rhs

/-- The operator `operator>=` on numMixer. -/
def numMixer.ge (lhs rhs : numMixer) : Bool :=
  !numMixer.lt lhs rhs

/-- The mutator `multiMix::removeNumMixers`; `pop()` on an empty stack is undefined. -/
def multiMix.removeNumMixers : Nat → multiMix → Run multiMix
  | 0, mm => .done mm
  | count + 1, mm =>
    match mm.numMixerStack with
    | [] => .undef
    | _ :: below => multiMix.removeNumMixers count { numMixerStack := below }

/-- The accessor `multiMix::getNumMixerCount`. -/
def multiMix.getNumMixerCount (mm : multiMix) : Int :=
  (mm.numMixerStack.length : Nat)

/-- The accessor `multiMix::hasNumMixers`: `size()` converted to `bool`. -/
def multiMix.hasNumMixers (mm : multiMix) : Bool :=
  decide (mm.numMixerStack.length ≠ 0)

/-- The loop `while (!src.empty()) { dst.push(src.top()); src.pop(); }`, which
`multiMix::operator+=(multiMix)` runs twice. -/
def multiMix.pour : List numMixer → List numMixer → List numMixer
  | [], dst => dst
  | top :: rest, dst => multiMix.pour rest (top :: dst)

/-- The operator `multiMix::operator+=(multiMix copy)`: `copy` is poured into
`invStack`, and `invStack` onto `_numMixerStack`. -/
def multiMix.addAssign (mm copy : multiMix) : multiMix :=
  let invStack := multiMix.pour copy.numMixerStack []
  { numMixerStack := multiMix.pour invStack mm.numMixerStack }

/-- The stack of a multiMix read from its bottom to its top. -/
def multiMix.bottomToTop (mm : multiMix) : List numMixer :=
  mm.numMixerStack.reverse

/-- The "append all" of the specification: the elements of the right-hand operand
end up above the existing elements, in their relative order. -/
def multiMix.appendAll (a b : multiMix) : multiMix :=
  { numMixerStack := (a.bottomToTop ++ b.bottomToTop).reverse }

/-- The test `purgePrimeNumbers` keeps an element on: it is not in the prime table. -/
def multiMix.notPrime (v : Int) : Bool :=
  !multiMix.isPrime v

/-- The object `numMixer({-1, 2})` when the engine's next raw value is 0. -/
def minusOne : numMixer :=
  { stateChangeCount := 0, countDown := 10, evenValid := true, oddValid := true,
    dataset := [-1, 2], controllerState := .MIX }

/-- The bisection `std::lower_bound` runs on a random-access range (as in
libstdc++), with `fuel` bounding the number of turns: `first` and `len` are the
start and the length of the part still searched; the result is the index the
search stops at. -/
def lower_bound (range : List Int) (val : Int) : Nat → Nat → Nat → Nat
  | 0, first, _ => first
  | fuel + 1, first, len =>
    if len = 0 then first
    else if range.getD (first + len / 2) 0 < val then
      lower_bound range val fuel (first + len / 2 + 1) (len - len / 2 - 1)
    else lower_bound range val fuel first (len / 2)

/-- The way `std::binary_search` computes its result: `i = lower_bound(..., val)`,
then `i != last && !(val < *i)`. -/
def bisect (range : List Int) (val : Int) : Bool :=
  decide (lower_bound range val range.length 0 range.length ≠ range.length) &&
    !decide (val < range.getD (lower_bound range val range.length 0 range.length) 0)

/-- The order-preserving dedup the specification contrasts purgeDuplicates with,
given the values already seen: an element is kept when it has not been seen. -/
def firstOccurrencesFrom (seen : List Int) : List Int → List Int
  | [] => []
  | a :: rest =>
    if a ∈ seen then firstOccurrencesFrom seen rest
    else a :: firstOccurrencesFrom (a :: seen) rest

/-- The list of first occurrences of the values of `arr`, in original order. -/
def firstOccurrences (arr : List Int) : List Int :=
  firstOccurrencesFrom [] arr

/-- The dubMix `freshDub` becomes after `setCtl(1)` and ten pings: the countdown of
`_x` is 0. -/
def spentXDub : dubMix :=
  ⟨1, ⟨1, 0, true, true, defaultDataset, .EVEN⟩, ⟨1, 10, true, true, defaultDataset, .ODD⟩⟩

/-! ## Parity of the C++ remainder -/

theorem tmod_two_eq_zero_iff (x : Int) : x.tmod 2 = 0 ↔ Even x := by
  rw [← Int.dvd_iff_tmod_eq_zero, even_iff_two_dvd]

theorem tmod_two_ne_zero_iff (x : Int) : x.tmod 2 ≠ 0 ↔ Odd x := by
  rw [← Int.not_even_iff_odd, not_iff_not]
  exact tmod_two_eq_zero_iff x

theorem odd_of_tmod_two_eq_one (x : Int) (h : x.tmod 2 = 1) : Odd x := by
  rw [← tmod_two_ne_zero_iff, h]
  decide

theorem againEven_eq_false_iff (v : Int) : againEven v = false ↔ Even v := by
  simp [againEven, tmod_two_eq_zero_iff]

theorem odd_of_againOdd_eq_false (v : Int) (h : againOdd v = false) : Odd v := by
  apply odd_of_tmod_two_eq_one
  simpa [againOdd] using h

/-! ## The validation loop of the constructor -/

theorem foldl_validateStep_fst (D : List Int) (e o : Bool) :
    (D.foldl validateStep (e, o)).1 = true ↔ e = true ∨ ∃ x ∈ D, Even x := by
  induction D generalizing e o with
  | nil => simp
  | cons val D ih =>
    rw [List.foldl_cons]
    by_cases hv : val.tmod 2 ≠ 0
    · have hodd : ¬ Even val := by
        rw [← tmod_two_eq_zero_iff]; exact hv
      simp only [validateStep, if_pos hv, ih, List.mem_cons, exists_eq_or_imp]
      tauto
    · have hev : Even val := by
        rw [← tmod_two_eq_zero_iff]; exact not_not.mp hv
      simp only [validateStep, if_neg hv, ih, List.mem_cons, exists_eq_or_imp]
      tauto

theorem foldl_validateStep_snd (D : List Int) (e o : Bool) :
    (D.foldl validateStep (e, o)).2 = true ↔ o = true ∨ ∃ x ∈ D, Odd x := by
  induction D generalizing e o with
  | nil => simp
  | cons val D ih =>
    rw [List.foldl_cons]
    by_cases hv : val.tmod 2 ≠ 0
    · have hodd : Odd val := (tmod_two_ne_zero_iff val).mp hv
      simp only [validateStep, if_pos hv, ih, List.mem_cons, exists_eq_or_imp]
      tauto
    · have hev : ¬ Odd val := by
        rw [← tmod_two_ne_zero_iff]; exact hv
      simp only [validateStep, if_neg hv, ih, List.mem_cons, exists_eq_or_imp]
      tauto

theorem mkDataset_returns (D : List Int) (raw : Nat) (eng : List Nat) :
    ∃ m : numMixer, numMixer.mkDataset D (raw :: eng) = .done (m, eng) ∧
      m.dataset = D ∧
      (m.evenValid = true ↔ ∃ x ∈ D, Even x) ∧
      (m.oddValid = true ↔ ∃ x ∈ D, Odd x) := by
  refine ⟨_, rfl, rfl, ?_, ?_⟩
  · simpa using foldl_validateStep_fst D false false
  · simpa using foldl_validateStep_snd D false false

/-! ## What a returned sample looks like -/

theorem Run.bind_eq_done {α β : Type} (r : Run α) (f : α → Run β) (b : β) :
    r.bind f = .done b ↔ ∃ a, r = .done a ∧ f a = .done b := by
  cases r <;> simp [Run.bind]

theorem redraw_done (D : List Int) (again : Int → Bool) (eng : List Nat) :
    ∀ (i : Nat) (v : Int) (rest : List Nat), redraw D again i eng = .done (v, rest) →
      v ∈ D ∧ again v = false := by
  induction eng with
  | nil =>
    intro i v rest h
    unfold redraw at h
    cases hd : D[i]? with
    | none => simp [hd] at h
    | some w =>
      rw [hd] at h
      by_cases ha : again w = true
      · simp [ha] at h
      · simp only [ha, Bool.false_eq_true, if_false, Run.done.injEq, Prod.mk.injEq] at h
        obtain ⟨rfl, _⟩ := h
        exact ⟨List.getElem?_mem hd, by simpa using ha⟩
  | cons raw eng ih =>
    intro i v rest h
    unfold redraw at h
    cases hd : D[i]? with
    | none => simp [hd] at h
    | some w =>
      rw [hd] at h
      by_cases ha : again w = true
      · simp only [ha, if_true] at h
        exact ih _ v rest h
      · simp only [ha, Bool.false_eq_true, if_false, Run.done.injEq, Prod.mk.injEq] at h
        obtain ⟨rfl, _⟩ := h
        exact ⟨List.getElem?_mem hd, by simpa using ha⟩

theorem genRandNum_done (m : numMixer) (eng : List Nat) (v : Int) (rest : List Nat)
    (h : m.genRandNum eng = .done (v, rest)) :
    v ∈ m.dataset ∧ (m.controllerState = .EVEN → Even v) ∧
      (m.controllerState = .ODD → Odd v) := by
  unfold numMixer.genRandNum at h
  split at h
  · cases h
  · cases eng with
    | nil => cases h
    | cons raw eng =>
      cases hc : m.controllerState with
      | MIX =>
        simp only [hc] at h
        cases hd : m.dataset[distr 0 (m.dataset.length - 1) raw]? with
        | none => simp [hd] at h
        | some w =>
          simp only [hd, Run.done.injEq, Prod.mk.injEq] at h
          obtain ⟨rfl, _⟩ := h
          exact ⟨List.getElem?_mem hd, by simp, by simp⟩
      | EVEN =>
        simp only [hc] at h
        obtain ⟨hmem, hag⟩ := redraw_done _ _ _ _ _ _ h
        exact ⟨hmem, fun _ => (againEven_eq_false_iff v).mp hag, by simp⟩
      | ODD =>
        simp only [hc] at h
        obtain ⟨hmem, hag⟩ := redraw_done _ _ _ _ _ _ h
        exact ⟨hmem, by simp, fun _ => odd_of_againOdd_eq_false v hag⟩

theorem fill_done (m : numMixer) (buf : List Int) :
    ∀ (eng : List Nat) (out : List Int) (rest : List Nat),
      m.fill buf eng = .done (out, rest) →
      out.length = buf.length ∧ ∀ x ∈ out, x ∈ m.dataset ∧
        (m.controllerState = .EVEN → Even x) ∧ (m.controllerState = .ODD → Odd x) := by
  induction buf with
  | nil =>
    intro eng out rest h
    simp only [numMixer.fill, Run.done.injEq, Prod.mk.injEq] at h
    obtain ⟨rfl, _⟩ := h
    simp
  | cons b buf ih =>
    intro eng out rest h
    simp only [numMixer.fill, Run.bind_eq_done, Run.done.injEq, Prod.mk.injEq] at h
    obtain ⟨⟨v, e1⟩, hg, ⟨o2, e2⟩, hf, rfl, _⟩ := h
    obtain ⟨hlen, hall⟩ := ih _ _ _ hf
    refine ⟨by simp [hlen], ?_⟩
    intro x hx
    rcases List.mem_cons.mp hx with rfl | hx
    · exact genRandNum_done m eng _ e1 hg
    · exact hall x hx

/-- The test `isActive() && checkStateValid()` at the head of `numMixer::ping`. -/
theorem guard_eq_true_iff (m : numMixer) :
    (m.isActive && m.checkStateValid) = true ↔
      0 < m.countDown ∧ (m.controllerState = .MIX ∨
        (m.controllerState = .EVEN ∧ m.evenValid = true) ∨
        (m.controllerState = .ODD ∧ m.oddValid = true)) := by
  cases hc : m.controllerState <;>
    simp [numMixer.isActive, numMixer.checkStateValid, hc]

theorem ping_of_guard_false (m : numMixer) (buf : List Int) (eng : List Nat)
    (h : (m.isActive && m.checkStateValid) = false) :
    m.ping buf eng = .done (false, m, buf, eng) := by
  simp [numMixer.ping, h]

theorem ping_done_false (m m' : numMixer) (buf out : List Int) (eng rest : List Nat)
    (h : m.ping buf eng = .done (false, m', out, rest)) :
    (m.isActive && m.checkStateValid) = false ∧ m' = m ∧ out = buf ∧ rest = eng := by
  unfold numMixer.ping at h
  split at h
  · simp [Run.bind_eq_done] at h
  · next hg =>
    simp only [Run.done.injEq, Prod.mk.injEq, true_and] at h
    obtain ⟨rfl, rfl, rfl⟩ := h
    exact ⟨by simpa using hg, rfl, rfl, rfl⟩

theorem ping_eq_false_iff (m : numMixer) (buf : List Int) (eng : List Nat) :
    m.ping buf eng = .done (false, m, buf, eng) ↔
      (m.isActive && m.checkStateValid) = false :=
  ⟨fun h => (ping_done_false m m buf buf eng eng h).1, ping_of_guard_false m buf eng⟩

theorem ping_done_true (m m' : numMixer) (buf out : List Int) (eng rest : List Nat)
    (h : m.ping buf eng = .done (true, m', out, rest)) :
    (m.isActive && m.checkStateValid) = true ∧
      m' = { m with countDown := m.countDown - 1 } ∧
      m.fill buf eng = .done (out, rest) := by
  unfold numMixer.ping at h
  split at h
  · next hg =>
    simp only [Run.bind_eq_done, Run.done.injEq, Prod.mk.injEq, true_and] at h
    obtain ⟨⟨o, e⟩, hf, rfl, rfl, rfl⟩ := h
    exact ⟨hg, rfl, hf⟩
  · simp at h

/-! ## When a sample returns -/

theorem distr_index_lt (D : List Int) (hD : D ≠ []) (raw : Nat) :
    distr 0 (D.length - 1) raw < D.length := by
  have hpos : 0 < D.length := List.length_pos.mpr hD
  unfold distr
  have hn : D.length - 1 - 0 + 1 = D.length := by omega
  rw [hn, Nat.zero_add]
  exact Nat.mod_lt _ hpos

theorem accepted_cons (D : List Int) (ag : Int → Bool) (raw : Nat) (eng : List Nat) :
    accepted D ag (raw :: eng) = (if accepts D ag raw = true then 1 else 0) + accepted D ag eng := by
  unfold accepted
  rw [List.filter_cons]
  split <;> simp [Nat.add_comm]

theorem ne_nil_of_accepted (D : List Int) (ag : Int → Bool) (eng : List Nat)
    (h : 1 ≤ accepted D ag eng) : D ≠ [] := by
  rintro rfl
  have hz : ∀ tape : List Nat, accepted [] ag tape = 0 := by
    intro tape
    induction tape with
    | nil => rfl
    | cons raw tape ih => rw [accepted_cons, ih]; simp [accepts]
  rw [hz eng] at h
  omega

theorem redraw_of_accepts (D : List Int) (ag : Int → Bool) (raw : Nat) (eng : List Nat)
    (ha : accepts D ag raw = true) :
    ∃ v, redraw D ag (distr 0 (D.length - 1) raw) eng = .done (v, eng) := by
  unfold accepts at ha
  cases hd : D[distr 0 (D.length - 1) raw]? with
  | none => simp [hd] at ha
  | some v =>
    rw [hd] at ha
    have hv : ag v = false := by simpa using ha
    refine ⟨v, ?_⟩
    cases eng <;> simp [redraw, hd, hv]

theorem redraw_of_not_accepts (D : List Int) (hD : D ≠ []) (ag : Int → Bool)
    (raw raw' : Nat) (eng : List Nat) (ha : ¬ accepts D ag raw = true) :
    redraw D ag (distr 0 (D.length - 1) raw) (raw' :: eng) =
      redraw D ag (distr 0 (D.length - 1) raw') eng := by
  have hlt := distr_index_lt D hD raw
  unfold accepts at ha
  rw [List.getElem?_eq_getElem hlt] at ha
  have hv : ag D[distr 0 (D.length - 1) raw] = true := by simpa using ha
  rw [redraw, List.getElem?_eq_getElem hlt]
  simp [hv]

theorem redraw_returns (D : List Int) (hD : D ≠ []) (ag : Int → Bool) :
    ∀ (eng : List Nat) (raw : Nat), 1 ≤ accepted D ag (raw :: eng) →
      ∃ v rest, redraw D ag (distr 0 (D.length - 1) raw) eng = .done (v, rest) ∧
        accepted D ag (raw :: eng) ≤ accepted D ag rest + 1 := by
  intro eng
  induction eng with
  | nil =>
    intro raw h
    by_cases ha : accepts D ag raw = true
    · obtain ⟨v, hv⟩ := redraw_of_accepts D ag raw [] ha
      exact ⟨v, [], hv, by rw [accepted_cons]; simp [ha, accepted]⟩
    · rw [accepted_cons] at h
      simp [ha, accepted] at h
  | cons raw' eng ih =>
    intro raw h
    by_cases ha : accepts D ag raw = true
    · obtain ⟨v, hv⟩ := redraw_of_accepts D ag raw (raw' :: eng) ha
      exact ⟨v, raw' :: eng, hv, by rw [accepted_cons]; simp [ha, Nat.add_comm]⟩
    · have hc : accepted D ag (raw :: raw' :: eng) = accepted D ag (raw' :: eng) := by
        rw [accepted_cons]; simp [ha]
      rw [hc] at h ⊢
      rw [redraw_of_not_accepts D hD ag raw raw' eng ha]
      exact ih raw' h

theorem genRandNum_returns (m : numMixer) (eng : List Nat)
    (h : 1 ≤ accepted m.dataset (againOf m.controllerState) eng) :
    ∃ v rest, m.genRandNum eng = .done (v, rest) ∧
      accepted m.dataset (againOf m.controllerState) eng ≤
        accepted m.dataset (againOf m.controllerState) rest + 1 := by
  have hD := ne_nil_of_accepted _ _ _ h
  have hlen : ¬ m.dataset.length = 0 := by
    simpa [List.length_eq_zero] using hD
  cases eng with
  | nil => simp [accepted] at h
  | cons raw eng =>
    unfold numMixer.genRandNum
    rw [if_neg hlen]
    cases hc : m.controllerState with
    | MIX =>
      have hlt := distr_index_lt m.dataset hD raw
      refine ⟨m.dataset[distr 0 (m.dataset.length - 1) raw], eng, ?_, ?_⟩
      · simp [List.getElem?_eq_getElem hlt]
      · rw [accepted_cons]
        split <;> omega
    | EVEN =>
      rw [hc] at h
      exact redraw_returns m.dataset hD againEven eng raw h
    | ODD =>
      rw [hc] at h
      exact redraw_returns m.dataset hD againOdd eng raw h

theorem fill_returns (m : numMixer) (buf : List Int) :
    ∀ eng : List Nat, buf.length ≤ accepted m.dataset (againOf m.controllerState) eng →
      ∃ out rest, m.fill buf eng = .done (out, rest) ∧
        accepted m.dataset (againOf m.controllerState) eng ≤
          accepted m.dataset (againOf m.controllerState) rest + buf.length := by
  induction buf with
  | nil =>
    intro eng _
    exact ⟨[], eng, rfl, by simp⟩
  | cons b buf ih =>
    intro eng h
    rw [List.length_cons] at h
    obtain ⟨v, e1, hg, hc1⟩ := genRandNum_returns m eng (by omega)
    obtain ⟨out, rest, hf, hc2⟩ := ih e1 (by omega)
    refine ⟨v :: out, rest, ?_, ?_⟩
    · simp [numMixer.fill, hg, hf, Run.bind]
    · rw [List.length_cons]; omega

theorem ping_returns_true (m : numMixer) (buf : List Int) (eng : List Nat)
    (hg : (m.isActive && m.checkStateValid) = true)
    (h : buf.length ≤ accepted m.dataset (againOf m.controllerState) eng) :
    ∃ out rest, m.ping buf eng =
      .done (true, { m with countDown := m.countDown - 1 }, out, rest) := by
  obtain ⟨out, rest, hf, _⟩ := fill_returns m buf eng h
  exact ⟨out, rest, by simp [numMixer.ping, hg, hf, Run.bind]⟩

/-! ## The mixer after a call -/

theorem setControllerState_fields (m : numMixer) (s : OutputController) :
    (m.setControllerState s).dataset = m.dataset ∧
      (m.setControllerState s).countDown = m.countDown ∧
      (m.setControllerState s).evenValid = m.evenValid ∧
      (m.setControllerState s).oddValid = m.oddValid := by
  unfold numMixer.setControllerState
  split <;> simp

theorem setControllerState_controllerState (m : numMixer) (s : OutputController) :
    (m.setControllerState s).controllerState = s := by
  unfold numMixer.setControllerState
  split
  · rfl
  · next h => exact not_not.mp h

theorem ping_done_fields (m m' : numMixer) (buf out : List Int) (eng rest : List Nat) (b : Bool)
    (h : m.ping buf eng = .done (b, m', out, rest)) :
    m'.dataset = m.dataset ∧ m'.evenValid = m.evenValid ∧ m'.oddValid = m.oddValid ∧
      m'.controllerState = m.controllerState ∧ m'.stateChangeCount = m.stateChangeCount ∧
      m'.countDown = m.countDown - (if b = true then 1 else 0) := by
  cases b with
  | false =>
    obtain ⟨_, rfl, _, _⟩ := ping_done_false m m' buf out eng rest h
    simp
  | true =>
    obtain ⟨_, rfl, _⟩ := ping_done_true m m' buf out eng rest h
    simp

theorem runCalls_countDown (calls : List Call) :
    ∀ (m : numMixer) (eng : List Nat) (m' : numMixer) (flags : List Bool) (rest : List Nat),
      runCalls m calls eng = .done (m', flags, rest) →
      m'.countDown = m.countDown - (flags.count true : Nat) := by
  induction calls with
  | nil =>
    intro m eng m' flags rest h
    simp only [runCalls, Run.done.injEq, Prod.mk.injEq] at h
    obtain ⟨rfl, rfl, _⟩ := h
    simp
  | cons c calls ih =>
    intro m eng m' flags rest h
    cases c with
    | ping buf =>
      simp only [runCalls, Run.bind_eq_done, Run.done.injEq, Prod.mk.injEq] at h
      obtain ⟨⟨b, m1, out, e1⟩, hp, ⟨m2, fl, e2⟩, hr, rfl, rfl, _⟩ := h
      have h1 := (ping_done_fields m m1 buf out eng e1 b hp).2.2.2.2.2
      have h2 := ih m1 e1 m2 fl e2 hr
      simp only at h2 ⊢
      cases b with
      | false =>
        rw [List.count_cons_of_ne (by decide)]
        simp at h1
        rw [h2, h1]
      | true =>
        rw [List.count_cons_self]
        simp at h1
        rw [h2, h1]
        push_cast
        ring
    | setControllerState s =>
      simp only [runCalls] at h
      rw [ih _ eng m' flags rest h, (setControllerState_fields m s).2.1]

theorem ping_odd_without_odd_value (D : List Int) (hD : ∀ x ∈ D, Even x) (raw : Nat)
    (tape : List Nat) (buf : List Int) (eng : List Nat) :
    ∃ m : numMixer, numMixer.mkDataset D (raw :: tape) = .done (m, tape) ∧
      (m.setControllerState .ODD).ping buf eng =
        .done (false, m.setControllerState .ODD, buf, eng) := by
  obtain ⟨m, hm, _, _, ho⟩ := mkDataset_returns D raw tape
  refine ⟨m, hm, ping_of_guard_false _ buf eng ?_⟩
  have hno : m.oddValid = false := by
    cases hv : m.oddValid with
    | false => rfl
    | true =>
      obtain ⟨x, hx, hodd⟩ := ho.mp hv
      exact absurd (hD x hx) (Int.not_even_iff_odd.mpr hodd)
  simp [numMixer.checkStateValid, setControllerState_controllerState,
    (setControllerState_fields m .ODD).2.2.2, hno]

theorem mem_defaultDataset (x : Int) : x ∈ defaultDataset ↔ 1 ≤ x ∧ x ≤ 100 := by
  simp only [defaultDataset, List.mem_map, List.mem_range]
  constructor
  · rintro ⟨i, hi, rfl⟩
    omega
  · rintro ⟨h1, h2⟩
    exact ⟨(x - 1).toNat, by omega, by omega⟩

theorem redraw_minus_three (eng : List Nat) : redraw [-3] againOdd 0 eng = .starved := by
  induction eng with
  | nil => rfl
  | cons raw eng ih =>
    have h0 : distr 0 ([(-3 : Int)].length - 1) raw = 0 := by
      simp [distr, Nat.mod_one]
    rw [redraw]
    simp only [List.getElem?_cons_zero]
    rw [h0]
    simpa [againOdd] using ih

/-! ## Claims on numMixer -/

/-- C1: for every integer dataset `D`, negative values included, the constructor
from `D` returns (one engine draw is enough) a numMixer over `D` whose `evenValid`
is true iff `D` contains an even value and whose `oddValid` is true iff `D`
contains an odd value. -/
theorem mkDataset_flags (D : List Int) (raw : Nat) (eng : List Nat) :
    ∃ m : numMixer, numMixer.mkDataset D (raw :: eng) = .done (m, eng) ∧
      m.dataset = D ∧
      (m.evenValid = true ↔ ∃ x ∈ D, Even x) ∧
      (m.oddValid = true ↔ ∃ x ∈ D, Odd x) :=
  mkDataset_returns D raw eng

/-- C2 (the code at the failing input): the object `numMixer({-3})` has `oddValid`
set and a positive countdown, so in `ODD` mode the test at the head of ping
passes; yet its ping on a one-element buffer returns on no tape, because the
loop test `_dataset[i] % 2 != 1` holds of `-3`. -/
theorem ping_negative_odd_starves (raw : Nat) (eng : List Nat) :
    ∃ m : numMixer, numMixer.mkDataset [-3] [raw] = .done (m, []) ∧
      m.oddValid = true ∧ 0 < m.countDown ∧
      ((m.setControllerState .ODD).isActive &&
        (m.setControllerState .ODD).checkStateValid) = true ∧
      (m.setControllerState .ODD).ping [0] eng = .starved := by
  have hpos : (0 : Int) < ((distr 10 20 raw : Nat) : Int) := by
    unfold distr
    omega
  have hfl : [(-3 : Int)].foldl validateStep (false, false) = (false, true) := by decide
  have h0 : ∀ r : Nat, distr 0 0 r = 0 := by
    intro r
    simp [distr, Nat.mod_one]
  refine ⟨_, rfl, ?_, hpos, ?_, ?_⟩
  · simp only [hfl]
  · simp [numMixer.setControllerState, numMixer.isActive, numMixer.checkStateValid,
      hfl, hpos]
  · cases eng with
    | nil =>
      simp [numMixer.ping, numMixer.setControllerState, numMixer.isActive,
        numMixer.checkStateValid, hfl, hpos, numMixer.fill, numMixer.genRandNum,
        Run.bind]
    | cons r eng =>
      simp [numMixer.ping, numMixer.setControllerState, numMixer.isActive,
        numMixer.checkStateValid, hfl, hpos, numMixer.fill, numMixer.genRandNum,
        Run.bind, h0, redraw_minus_three]

/-- C3: after a ping that returned true the buffer has kept its length, each of its
elements is a member of the dataset, every element is even when the mode is
`EVEN` and every element is odd when the mode is `ODD`. -/
theorem ping_success_values (m m' : numMixer) (buf out : List Int) (eng rest : List Nat)
    (h : m.ping buf eng = .done (true, m', out, rest)) :
    out.length = buf.length ∧ (∀ x ∈ out, x ∈ m.dataset) ∧
      (m.controllerState = .EVEN → ∀ x ∈ out, Even x) ∧
      (m.controllerState = .ODD → ∀ x ∈ out, Odd x) := by
  obtain ⟨_, _, hf⟩ := ping_done_true m m' buf out eng rest h
  obtain ⟨hlen, hall⟩ := fill_done m buf eng out rest hf
  exact ⟨hlen, fun x hx => (hall x hx).1, fun hc x hx => (hall x hx).2.1 hc,
    fun hc x hx => (hall x hx).2.2 hc⟩

theorem ping_success_values_witness :
    (pairMixer.setControllerState .EVEN).ping [0, 0] [0, 1, 4, 3, 7] =
        .done (true, ⟨1, 9, true, true, [1, 2], .EVEN⟩, [2, 2], [7]) ∧
      ([(2 : Int), 2].length = [(0 : Int), 0].length ∧
        (∀ x ∈ [(2 : Int), 2], x ∈ (pairMixer.setControllerState .EVEN).dataset) ∧
        ((pairMixer.setControllerState .EVEN).controllerState = .EVEN →
          ∀ x ∈ [(2 : Int), 2], Even x) ∧
        ((pairMixer.setControllerState .EVEN).controllerState = .ODD →
          ∀ x ∈ [(2 : Int), 2], Odd x)) :=
  ⟨by decide,
    ping_success_values (pairMixer.setControllerState .EVEN) ⟨1, 9, true, true, [1, 2], .EVEN⟩
      [0, 0] [2, 2] [0, 1, 4, 3, 7] [7] (by decide)⟩

/-- C4: over every sequence of ping and setControllerState calls on a numMixer the
final countDown is the initial countDown minus the number of pings that returned
true, whatever the buffer lengths; and with countDown 0 every ping returns false,
in every mode. -/
theorem countDown_accounting :
    (∀ (m : numMixer) (calls : List Call) (eng : List Nat) (m' : numMixer)
        (flags : List Bool) (rest : List Nat),
        runCalls m calls eng = .done (m', flags, rest) →
        m'.countDown = m.countDown - (flags.count true : Nat)) ∧
    (∀ (m : numMixer) (buf : List Int) (eng : List Nat),
        m.countDown = 0 → m.ping buf eng = .done (false, m, buf, eng)) := by
  refine ⟨fun m calls eng m' flags rest h => runCalls_countDown calls m eng m' flags rest h, ?_⟩
  intro m buf eng h0
  apply ping_of_guard_false
  simp [numMixer.isActive, h0]

theorem countDown_accounting_witness :
    runCalls pairMixer
        [.ping [0, 0, 0], .setControllerState .ODD, .ping [0], .ping []] [5, 1, 0, 1, 0] =
        .done (⟨1, 7, true, true, [1, 2], .ODD⟩, [true, true, true], []) ∧
      (⟨1, 7, true, true, [1, 2], .ODD⟩ : numMixer).countDown =
        pairMixer.countDown - (([true, true, true] : List Bool).count true : Nat) :=
  ⟨by decide, countDown_accounting.1 pairMixer
    [.ping [0, 0, 0], .setControllerState .ODD, .ping [0], .ping []] [5, 1, 0, 1, 0]
    ⟨1, 7, true, true, [1, 2], .ODD⟩ [true, true, true] [] (by decide)⟩

/-- C5: whenever ping returns false the mixer is exactly as it was (countDown,
stateChangeCount, mode, flags and dataset), the buffer of the caller is not
modified, and the engine has not been advanced. -/
theorem ping_failure_no_change (m m' : numMixer) (buf out : List Int) (eng rest : List Nat)
    (h : m.ping buf eng = .done (false, m', out, rest)) :
    m' = m ∧ out = buf ∧ rest = eng :=
  (ping_done_false m m' buf out eng rest h).2

theorem ping_failure_no_change_witness :
    (evenOnly.setControllerState .ODD).ping [7, 8, 9] [0, 1] =
        .done (false, ⟨1, 10, true, false, [2], .ODD⟩, [7, 8, 9], [0, 1]) ∧
      ((⟨1, 10, true, false, [2], .ODD⟩ : numMixer) = evenOnly.setControllerState .ODD ∧
        [(7 : Int), 8, 9] = [(7 : Int), 8, 9] ∧ [(0 : Nat), 1] = [(0 : Nat), 1]) :=
  ⟨by decide,
    ping_failure_no_change (evenOnly.setControllerState .ODD) ⟨1, 10, true, false, [2], .ODD⟩
      [7, 8, 9] [7, 8, 9] [0, 1] [0, 1] (by decide)⟩

/-- C6: setControllerState with a mode different from the current one sets the
mode and adds exactly 1 to stateChangeCount; with the current mode it changes
nothing; in both cases dataset, countDown, evenValid and oddValid are unchanged,
and a second call with the same mode has no further effect. -/
theorem setControllerState_spec (m : numMixer) (s : OutputController) :
    (s ≠ m.controllerState →
      (m.setControllerState s).controllerState = s ∧
        (m.setControllerState s).stateChangeCount = m.stateChangeCount + 1) ∧
    (s = m.controllerState → m.setControllerState s = m) ∧
    ((m.setControllerState s).dataset = m.dataset ∧
      (m.setControllerState s).countDown = m.countDown ∧
      (m.setControllerState s).evenValid = m.evenValid ∧
      (m.setControllerState s).oddValid = m.oddValid) ∧
    (m.setControllerState s).setControllerState s = m.setControllerState s := by
  refine ⟨?_, ?_, setControllerState_fields m s, ?_⟩
  · intro hne
    have hne' : m.controllerState ≠ s := fun h => hne h.symm
    simp [numMixer.setControllerState, hne']
  · intro heq
    simp [numMixer.setControllerState, heq]
  · have hs := setControllerState_controllerState m s
    generalize m.setControllerState s = n at hs
    simp [numMixer.setControllerState, hs]

theorem setControllerState_spec_witness :
    OutputController.EVEN ≠ pairMixer.controllerState ∧
      (pairMixer.setControllerState .EVEN).controllerState = .EVEN ∧
      (pairMixer.setControllerState .EVEN).stateChangeCount = pairMixer.stateChangeCount + 1 :=
  ⟨by decide, (setControllerState_spec pairMixer .EVEN).1 (by decide)⟩

/-- C7 (counterexample): the objects `numMixer({1})` and `numMixer({2})`, each with
countdown 10; after `+=` the countDown of the left one is 20, which is not at
most the 10 it was before. -/
theorem addAssign_raises_countDown :
    numMixer.mkDataset [1] [0] = .done (oddOnly, []) ∧
      numMixer.mkDataset [2] [0] = .done (evenOnly, []) ∧
      (oddOnly.addAssign evenOnly).countDown = 20 ∧
      ¬ ((oddOnly.addAssign evenOnly).countDown ≤ oddOnly.countDown) := by
  decide

/-- C7 (amended): setControllerState leaves countDown as it is and ping never
raises it (one less after a ping that returned true, unchanged after one that
returned false); operator+= makes countDown the sum of the countDowns of the two
operands, so there it is at most the value before exactly when the countDown of
the right operand is not positive. -/
theorem countDown_after_operation (m : numMixer) :
    (∀ s : OutputController, (m.setControllerState s).countDown = m.countDown) ∧
    (∀ (buf out : List Int) (eng rest : List Nat) (b : Bool) (m' : numMixer),
      m.ping buf eng = .done (b, m', out, rest) →
        m'.countDown = m.countDown - (if b = true then 1 else 0) ∧
          m'.countDown ≤ m.countDown) ∧
    (∀ obj : numMixer, (m.addAssign obj).countDown = m.countDown + obj.countDown ∧
      ((m.addAssign obj).countDown ≤ m.countDown ↔ obj.countDown ≤ 0)) := by
  refine ⟨fun s => (setControllerState_fields m s).2.1, ?_, ?_⟩
  · intro buf out eng rest b m' h
    have hc := (ping_done_fields m m' buf out eng rest b h).2.2.2.2.2
    refine ⟨hc, ?_⟩
    rw [hc]
    split <;> omega
  · intro obj
    have hsum : (m.addAssign obj).countDown = m.countDown + obj.countDown := rfl
    refine ⟨hsum, ?_⟩
    rw [hsum]
    omega

theorem countDown_after_operation_witness :
    (evenOnly.ping [0, 0] [3, 4, 5] =
        .done (true, ⟨0, 9, true, false, [2], .MIX⟩, [2, 2], [5])) ∧
      (⟨0, 9, true, false, [2], .MIX⟩ : numMixer).countDown =
          evenOnly.countDown - (if true = true then 1 else 0) ∧
        (⟨0, 9, true, false, [2], .MIX⟩ : numMixer).countDown ≤ evenOnly.countDown :=
  ⟨by decide, (countDown_after_operation evenOnly).2.1 [0, 0] [2, 2] [3, 4, 5] [5] true
    ⟨0, 9, true, false, [2], .MIX⟩ (by decide)⟩

/-- C8 (counterexample): `numMixer({1})` has evenValid false; after `+=` with
`numMixer({2})` its evenValid is true, so the flag did not keep its value. -/
theorem addAssign_changes_evenValid :
    numMixer.mkDataset [1] [0] = .done (oddOnly, []) ∧
      numMixer.mkDataset [2] [0] = .done (evenOnly, []) ∧
      oddOnly.evenValid = false ∧ (oddOnly.addAssign evenOnly).evenValid = true ∧
      ¬ ((oddOnly.addAssign evenOnly).evenValid = oddOnly.evenValid) := by
  decide

/-- C8 (amended): setControllerState and ping leave evenValid and oddValid as they
are; operator+= replaces each flag by the logical OR of that flag in the two
operands, so a flag that was true stays true and a flag that was false becomes
true exactly when it is true in the right operand. -/
theorem flags_after_operation (m : numMixer) :
    (∀ s : OutputController, (m.setControllerState s).evenValid = m.evenValid ∧
      (m.setControllerState s).oddValid = m.oddValid) ∧
    (∀ (buf out : List Int) (eng rest : List Nat) (b : Bool) (m' : numMixer),
      m.ping buf eng = .done (b, m', out, rest) →
        m'.evenValid = m.evenValid ∧ m'.oddValid = m.oddValid) ∧
    (∀ obj : numMixer, (m.addAssign obj).evenValid = (m.evenValid || obj.evenValid) ∧
      (m.addAssign obj).oddValid = (m.oddValid || obj.oddValid)) := by
  refine ⟨fun s => (setControllerState_fields m s).2.2, ?_, fun obj => ⟨rfl, rfl⟩⟩
  intro buf out eng rest b m' h
  have hf := ping_done_fields m m' buf out eng rest b h
  exact ⟨hf.2.1, hf.2.2.1⟩

theorem flags_after_operation_witness :
    (oddOnly.ping [0] [6, 1] = .done (true, ⟨0, 9, false, true, [1], .MIX⟩, [1], [1])) ∧
      (⟨0, 9, false, true, [1], .MIX⟩ : numMixer).evenValid = oddOnly.evenValid ∧
        (⟨0, 9, false, true, [1], .MIX⟩ : numMixer).oddValid = oddOnly.oddValid :=
  ⟨by decide, (flags_after_operation oddOnly).2.1 [0] [1] [6, 1] [1] true
    ⟨0, 9, false, true, [1], .MIX⟩ (by decide)⟩

/-- C9: the parity flags reflect the dataset after both constructors (each returns
as soon as the engine supplies one draw), and setControllerState, ping and
operator+= keep it so; for operator+=, when it holds of both operands it holds
of the result. -/
theorem flagsReflect_invariant :
    (∀ (raw : Nat) (eng : List Nat),
      ∃ m : numMixer, numMixer.mkDefault (raw :: eng) = .done (m, eng) ∧ flagsReflect m) ∧
    (∀ (D : List Int) (raw : Nat) (eng : List Nat),
      ∃ m : numMixer, numMixer.mkDataset D (raw :: eng) = .done (m, eng) ∧ flagsReflect m) ∧
    (∀ (m : numMixer) (s : OutputController),
      flagsReflect m → flagsReflect (m.setControllerState s)) ∧
    (∀ (m m' : numMixer) (buf out : List Int) (eng rest : List Nat) (b : Bool),
      flagsReflect m → m.ping buf eng = .done (b, m', out, rest) → flagsReflect m') ∧
    (∀ a b : numMixer, flagsReflect a → flagsReflect b → flagsReflect (a.addAssign b)) := by
  refine ⟨?_, ?_, ?_, ?_, ?_⟩
  · intro raw eng
    refine ⟨_, rfl, ?_, ?_⟩
    · simp only [true_iff]
      exact ⟨2, (mem_defaultDataset 2).mpr (by omega), by decide⟩
    · simp only [true_iff]
      exact ⟨1, (mem_defaultDataset 1).mpr (by omega), by decide⟩
  · intro D raw eng
    obtain ⟨m, hm, hd, he, ho⟩ := mkDataset_returns D raw eng
    exact ⟨m, hm, by rw [hd]; exact he, by rw [hd]; exact ho⟩
  · intro m s h
    obtain ⟨hd, _, he, ho⟩ := setControllerState_fields m s
    unfold flagsReflect
    rw [hd, he, ho]
    exact h
  · intro m m' buf out eng rest b h hp
    obtain ⟨hd, he, ho, _⟩ := ping_done_fields m m' buf out eng rest b hp
    unfold flagsReflect
    rw [hd, he, ho]
    exact h
  · intro a b ha hb
    obtain ⟨hae, hao⟩ := ha
    obtain ⟨hbe, hbo⟩ := hb
    constructor
    · show (a.evenValid || b.evenValid) = true ↔ ∃ x ∈ a.dataset ++ b.dataset, Even x
      rw [Bool.or_eq_true, hae, hbe]
      simp only [List.mem_append, or_and_right, exists_or]
    · show (a.oddValid || b.oddValid) = true ↔ ∃ x ∈ a.dataset ++ b.dataset, Odd x
      rw [Bool.or_eq_true, hao, hbo]
      simp only [List.mem_append, or_and_right, exists_or]

theorem flagsReflect_invariant_witness :
    flagsReflect oddOnly ∧ flagsReflect evenOnly ∧ flagsReflect (oddOnly.addAssign evenOnly) :=
  have h1 : flagsReflect oddOnly := by unfold flagsReflect; decide
  have h2 : flagsReflect evenOnly := by unfold flagsReflect; decide
  ⟨h1, h2, flagsReflect_invariant.2.2.2.2 oddOnly evenOnly h1 h2⟩

/-- C10: a default-constructed numMixer has dataset 1..100, a countDown from 10 to
20, mode `MIX` and stateChangeCount 0; after setControllerState(EVEN) a ping with
a 10-element buffer returns true as soon as the tape holds ten draws of an even
value (with fewer the loop of genRandNum is still running when the tape ends),
all 10 returned values are even integers from 2 to 100, and countDown is one
less. -/
theorem default_even_ping (raw : Nat) (eng : List Nat) (buf : List Int)
    (hbuf : buf.length = 10) (hdraws : 10 ≤ accepted defaultDataset againEven eng) :
    ∃ (m m' : numMixer) (out : List Int) (rest : List Nat),
      numMixer.mkDefault (raw :: eng) = .done (m, eng) ∧
      m.dataset = defaultDataset ∧ 10 ≤ m.countDown ∧ m.countDown ≤ 20 ∧
      m.controllerState = .MIX ∧ m.stateChangeCount = 0 ∧
      (m.setControllerState .EVEN).ping buf eng = .done (true, m', out, rest) ∧
      out.length = 10 ∧ (∀ x ∈ out, Even x ∧ 2 ≤ x ∧ x ≤ 100) ∧
      m'.countDown = m.countDown - 1 := by
  have hlo : (10 : Int) ≤ ((distr 10 20 raw : Nat) : Int) := by
    unfold distr
    omega
  have hhi : ((distr 10 20 raw : Nat) : Int) ≤ 20 := by
    unfold distr
    omega
  obtain ⟨hd, hc, he, _⟩ := setControllerState_fields
    ⟨0, (distr 10 20 raw : Nat), true, true, defaultDataset, .MIX⟩ .EVEN
  have hs := setControllerState_controllerState
    ⟨0, (distr 10 20 raw : Nat), true, true, defaultDataset, .MIX⟩ .EVEN
  generalize hn : numMixer.setControllerState
    ⟨0, (distr 10 20 raw : Nat), true, true, defaultDataset, .MIX⟩ .EVEN = n at hd hc he hs
  simp only at hd hc he
  have hg : (n.isActive && n.checkStateValid) = true := by
    rw [guard_eq_true_iff, hc, hs, he]
    exact ⟨by omega, Or.inr (Or.inl ⟨rfl, rfl⟩)⟩
  have hacc : buf.length ≤ accepted n.dataset (againOf n.controllerState) eng := by
    rw [hbuf, hd, hs]
    exact hdraws
  obtain ⟨out, rest, hp⟩ := ping_returns_true n buf eng hg hacc
  obtain ⟨_, _, hf⟩ := ping_done_true n _ buf out eng rest hp
  obtain ⟨hlen, hall⟩ := fill_done n buf eng out rest hf
  refine ⟨⟨0, (distr 10 20 raw : Nat), true, true, defaultDataset, .MIX⟩,
    { n with countDown := n.countDown - 1 }, out, rest, rfl, rfl, hlo, hhi, rfl, rfl, ?_,
    by rw [hlen, hbuf], ?_, by simp [hc]⟩
  · rw [hn]
    exact hp
  · intro x hx
    obtain ⟨hmem, hev, _⟩ := hall x hx
    rw [hd, mem_defaultDataset] at hmem
    have hxe : Even x := hev hs
    obtain ⟨r, hr⟩ := hxe
    exact ⟨⟨r, hr⟩, by omega, hmem.2⟩

theorem default_even_ping_witness :
    ([(0 : Int), 0, 0, 0, 0, 0, 0, 0, 0, 0].length = 10 ∧
      10 ≤ accepted defaultDataset againEven [1, 3, 5, 7, 9, 11, 13, 15, 17, 19]) ∧
    ∃ (m m' : numMixer) (out : List Int) (rest : List Nat),
      numMixer.mkDefault (4 :: [1, 3, 5, 7, 9, 11, 13, 15, 17, 19]) =
        .done (m, [1, 3, 5, 7, 9, 11, 13, 15, 17, 19]) ∧
      m.dataset = defaultDataset ∧ 10 ≤ m.countDown ∧ m.countDown ≤ 20 ∧
      m.controllerState = .MIX ∧ m.stateChangeCount = 0 ∧
      (m.setControllerState .EVEN).ping [0, 0, 0, 0, 0, 0, 0, 0, 0, 0]
        [1, 3, 5, 7, 9, 11, 13, 15, 17, 19] = .done (true, m', out, rest) ∧
      out.length = 10 ∧ (∀ x ∈ out, Even x ∧ 2 ≤ x ∧ x ≤ 100) ∧
      m'.countDown = m.countDown - 1 :=
  ⟨⟨by decide, by decide⟩,
    default_even_ping 4 [1, 3, 5, 7, 9, 11, 13, 15, 17, 19] [0, 0, 0, 0, 0, 0, 0, 0, 0, 0]
      (by decide) (by decide)⟩

/-! ## Longer tapes -/

theorem redraw_of_getElem? (D : List Int) (ag : Int → Bool) (i : Nat) (v : Int) (t : List Nat)
    (hd : D[i]? = some v) (hv : ag v = false) : redraw D ag i t = .done (v, t) := by
  cases t <;> simp [redraw, hd, hv]

theorem redraw_append (D : List Int) (ag : Int → Bool) (t : List Nat) (eng : List Nat) :
    ∀ (i : Nat) (v : Int) (rest : List Nat), redraw D ag i eng = .done (v, rest) →
      redraw D ag i (eng ++ t) = .done (v, rest ++ t) := by
  induction eng with
  | nil =>
    intro i v rest h
    unfold redraw at h
    cases hd : D[i]? with
    | none => simp [hd] at h
    | some w =>
      rw [hd] at h
      by_cases ha : ag w = true
      · simp [ha] at h
      · simp only [ha, Bool.false_eq_true, if_false, Run.done.injEq, Prod.mk.injEq] at h
        obtain ⟨rfl, rfl⟩ := h
        simpa using redraw_of_getElem? D ag i w t hd (by simpa using ha)
  | cons raw eng ih =>
    intro i v rest h
    unfold redraw at h
    rw [List.cons_append, redraw]
    cases hd : D[i]? with
    | none => simp [hd] at h
    | some w =>
      rw [hd] at h
      by_cases ha : ag w = true
      · simp only [ha, if_true] at h ⊢
        exact ih _ v rest h
      · simp only [ha, Bool.false_eq_true, if_false, Run.done.injEq, Prod.mk.injEq] at h ⊢
        obtain ⟨rfl, rfl⟩ := h
        exact ⟨rfl, rfl⟩

theorem genRandNum_append (m : numMixer) (eng t : List Nat) (v : Int) (rest : List Nat)
    (h : m.genRandNum eng = .done (v, rest)) :
    m.genRandNum (eng ++ t) = .done (v, rest ++ t) := by
  unfold numMixer.genRandNum at h ⊢
  split at h
  · cases h
  · next hlen =>
    rw [if_neg hlen]
    cases eng with
    | nil => cases h
    | cons raw eng =>
      rw [List.cons_append]
      cases hc : m.controllerState with
      | MIX =>
        simp only [hc] at h ⊢
        cases hd : m.dataset[distr 0 (m.dataset.length - 1) raw]? with
        | none => simp [hd] at h
        | some w =>
          simp only [hd, Run.done.injEq, Prod.mk.injEq] at h ⊢
          obtain ⟨rfl, rfl⟩ := h
          exact ⟨rfl, rfl⟩
      | EVEN =>
        simp only [hc] at h ⊢
        exact redraw_append _ _ t eng _ v rest h
      | ODD =>
        simp only [hc] at h ⊢
        exact redraw_append _ _ t eng _ v rest h

theorem fill_append (m : numMixer) (t : List Nat) (buf : List Int) :
    ∀ (eng : List Nat) (out : List Int) (rest : List Nat),
      m.fill buf eng = .done (out, rest) → m.fill buf (eng ++ t) = .done (out, rest ++ t) := by
  induction buf with
  | nil =>
    intro eng out rest h
    simp only [numMixer.fill, Run.done.injEq, Prod.mk.injEq] at h ⊢
    obtain ⟨rfl, rfl⟩ := h
    exact ⟨rfl, rfl⟩
  | cons b buf ih =>
    intro eng out rest h
    simp only [numMixer.fill, Run.bind_eq_done, Run.done.injEq, Prod.mk.injEq] at h
    obtain ⟨⟨v, e1⟩, hg, ⟨o2, e2⟩, hf, rfl, rfl⟩ := h
    simp [numMixer.fill, genRandNum_append m eng t v e1 hg, ih e1 o2 e2 hf, Run.bind]

theorem ping_append (m m' : numMixer) (t : List Nat) (buf out : List Int) (eng rest : List Nat)
    (b : Bool) (h : m.ping buf eng = .done (b, m', out, rest)) :
    m.ping buf (eng ++ t) = .done (b, m', out, rest ++ t) := by
  unfold numMixer.ping at h ⊢
  split at h
  · next hg =>
    rw [if_pos hg]
    simp only [Run.bind_eq_done, Run.done.injEq, Prod.mk.injEq] at h
    obtain ⟨⟨o, e⟩, hf, rfl, rfl, rfl, rfl⟩ := h
    simp [fill_append m t buf eng o e hf, Run.bind]
  · next hg =>
    rw [if_neg hg]
    simp only [Run.done.injEq, Prod.mk.injEq] at h ⊢
    obtain ⟨rfl, rfl, rfl, rfl⟩ := h
    exact ⟨rfl, rfl, rfl, rfl⟩

theorem accepted_append (D : List Int) (ag : Int → Bool) (a b : List Nat) :
    accepted D ag (a ++ b) = accepted D ag a + accepted D ag b := by
  simp [accepted, List.filter_append]

theorem ping_returns (m : numMixer) (buf : List Int) (eng : List Nat)
    (h : buf.length ≤ accepted m.dataset (againOf m.controllerState) eng) :
    ∃ (b : Bool) (m' : numMixer) (out : List Int) (rest : List Nat),
      m.ping buf eng = .done (b, m', out, rest) := by
  cases hg : (m.isActive && m.checkStateValid) with
  | true =>
    obtain ⟨out, rest, hp⟩ := ping_returns_true m buf eng hg h
    exact ⟨true, _, out, rest, hp⟩
  | false => exact ⟨false, m, buf, eng, ping_of_guard_false m buf eng hg⟩

theorem ping_returns_split (m : numMixer) (buf : List Int) (t1 t2 : List Nat)
    (h : buf.length ≤ accepted m.dataset (againOf m.controllerState) t1) :
    ∃ (b : Bool) (m' : numMixer) (out : List Int) (r1 : List Nat),
      m.ping buf (t1 ++ t2) = .done (b, m', out, r1 ++ t2) := by
  obtain ⟨b, m', out, r1, hp⟩ := ping_returns m buf t1 h
  exact ⟨b, m', out, r1, ping_append m m' t2 buf out t1 r1 b hp⟩

theorem accepted_MIX (D : List Int) (hD : D ≠ []) (eng : List Nat) :
    accepted D (againOf .MIX) eng = eng.length := by
  induction eng with
  | nil => rfl
  | cons raw eng ih =>
    rw [accepted_cons, ih]
    have hlt := distr_index_lt D hD raw
    have : accepts D (againOf .MIX) raw = true := by
      simp [accepts, List.getElem?_eq_getElem hlt, againOf]
    simp [this, Nat.add_comm]

/-! ## purgeDuplicates -/

theorem getD_set_self (arr : List Int) (k : Nat) (v : Int) (hk : k < arr.length) :
    (arr.set k v).getD k 0 = v := by
  rw [List.getD_eq_getElem?_getD, List.getElem?_set]
  simp [hk]

theorem getD_set_ne (arr : List Int) (k p : Nat) (v : Int) (hp : p ≠ k) :
    (arr.set k v).getD p 0 = arr.getD p 0 := by
  rw [List.getD_eq_getElem?_getD, List.getD_eq_getElem?_getD, List.getElem?_set]
  simp [Ne.symm hp]

theorem findEarlier_eq_true_iff (arr : List Int) (i k : Nat) :
    dubMix.findEarlier arr i k = true ↔ ∃ j, j < k ∧ arr.getD j 0 = arr.getD i 0 := by
  induction k with
  | zero => simp [dubMix.findEarlier]
  | succ k ih =>
    unfold dubMix.findEarlier
    by_cases h : arr.getD k 0 = arr.getD i 0
    · simp only [h, if_true, true_iff]
      exact ⟨k, Nat.lt_succ_self k, h⟩
    · simp only [h, if_false, ih]
      constructor
      · rintro ⟨j, hj, he⟩
        exact ⟨j, Nat.lt_succ_of_lt hj, he⟩
      · rintro ⟨j, hj, he⟩
        have hjk : j ≠ k := fun hjk => h (hjk ▸ he)
        exact ⟨j, by omega, he⟩

theorem purgeLoop_spec (i : Nat) :
    ∀ (arr : List Int) (newSize : Nat), i < newSize → newSize ≤ arr.length →
      (∀ p q, q < p → i < p → p < newSize → arr.getD q 0 ≠ arr.getD p 0) →
      1 ≤ (dubMix.purgeLoop i arr newSize).2 ∧
      (dubMix.purgeLoop i arr newSize).2 ≤ newSize ∧
      (dubMix.purgeLoop i arr newSize).1.length = arr.length ∧
      (∀ p q, q < p → p < (dubMix.purgeLoop i arr newSize).2 →
        (dubMix.purgeLoop i arr newSize).1.getD q 0 ≠
          (dubMix.purgeLoop i arr newSize).1.getD p 0) ∧
      (∀ v, (∃ p, p < (dubMix.purgeLoop i arr newSize).2 ∧
          (dubMix.purgeLoop i arr newSize).1.getD p 0 = v) ↔
        ∃ p, p < newSize ∧ arr.getD p 0 = v) := by
  induction i with
  | zero =>
    intro arr newSize h1 _ H
    refine ⟨h1, Nat.le_refl _, rfl, ?_, fun v => Iff.rfl⟩
    intro p q hq hp
    exact H p q hq (by omega) hp
  | succ i ih =>
    intro arr newSize h1 h2 H
    unfold dubMix.purgeLoop
    by_cases hf : dubMix.findEarlier arr (i + 1) (i + 1) = true
    · rw [if_pos hf]
      obtain ⟨j, hj, hje⟩ := (findEarlier_eq_true_iff arr (i + 1) (i + 1)).mp hf
      have hk : i + 1 < arr.length := by omega
      have hself := getD_set_self arr (i + 1) (arr.getD (newSize - 1) 0) hk
      have hne := fun p hp => getD_set_ne arr (i + 1) p (arr.getD (newSize - 1) 0) hp
      have H' : ∀ p q, q < p → i < p → p < newSize - 1 →
          (arr.set (i + 1) (arr.getD (newSize - 1) 0)).getD q 0 ≠
            (arr.set (i + 1) (arr.getD (newSize - 1) 0)).getD p 0 := by
        intro p q hq hip hp
        by_cases hpe : p = i + 1
        · subst hpe
          rw [hself, hne q (by omega)]
          exact H (newSize - 1) q (by omega) (by omega) (by omega)
        · rw [hne p hpe]
          by_cases hqe : q = i + 1
          · subst hqe
            rw [hself]
            exact fun he => H (newSize - 1) p (by omega) (by omega) (by omega) he.symm
          · rw [hne q hqe]
            exact H p q hq (by omega) (by omega)
      obtain ⟨r1, r2, r3, r4, r5⟩ := ih (arr.set (i + 1) (arr.getD (newSize - 1) 0))
        (newSize - 1) (by omega) (by rw [List.length_set]; omega) H'
      refine ⟨r1, by omega, by rw [r3, List.length_set], r4, ?_⟩
      intro v
      rw [r5 v]
      constructor
      · rintro ⟨p, hp, hv⟩
        by_cases hpe : p = i + 1
        · subst hpe
          rw [hself] at hv
          exact ⟨newSize - 1, by omega, hv⟩
        · rw [hne p hpe] at hv
          exact ⟨p, by omega, hv⟩
      · rintro ⟨p, hp, hv⟩
        by_cases hpe : p = i + 1
        · subst hpe
          refine ⟨j, by omega, ?_⟩
          rw [hne j (by omega), hje, hv]
        · by_cases hpl : p = newSize - 1
          · subst hpl
            exact ⟨i + 1, by omega, by rw [hself, hv]⟩
          · exact ⟨p, by omega, by rw [hne p hpe, hv]⟩
    · rw [if_neg hf]
      have hnone : ∀ j, j < i + 1 → arr.getD j 0 ≠ arr.getD (i + 1) 0 := by
        intro j hj he
        exact hf ((findEarlier_eq_true_iff arr (i + 1) (i + 1)).mpr ⟨j, hj, he⟩)
      apply ih arr newSize (by omega) h2
      intro p q hq hip hp
      by_cases hpe : p = i + 1
      · subst hpe
        exact hnone q hq
      · exact H p q hq (by omega) hp

theorem nodup_take_of_getD (l : List Int) (k : Nat) (hk : k ≤ l.length)
    (H : ∀ p q, q < p → p < k → l.getD q 0 ≠ l.getD p 0) : (l.take k).Nodup := by
  rw [List.nodup_iff_getElem?_ne_getElem?]
  intro a b hab hb
  rw [List.length_take] at hb
  have hbk : b < k := by omega
  have hbl : b < l.length := by omega
  have hal : a < l.length := by omega
  rw [List.getElem?_take_of_lt (by omega), List.getElem?_take_of_lt hbk,
    List.getElem?_eq_getElem hal, List.getElem?_eq_getElem hbl]
  intro he
  apply H b a hab hbk
  rw [List.getD_eq_getElem l 0 hal, List.getD_eq_getElem l 0 hbl]
  exact Option.some.inj he

theorem mem_take_iff_getD (l : List Int) (k : Nat) (hk : k ≤ l.length) (v : Int) :
    v ∈ l.take k ↔ ∃ p, p < k ∧ l.getD p 0 = v := by
  rw [List.mem_take_iff_getElem]
  constructor
  · rintro ⟨p, hp, hv⟩
    have hpk : p < k := by omega
    have hpl : p < l.length := by omega
    exact ⟨p, hpk, by rw [List.getD_eq_getElem l 0 hpl]; exact hv⟩
  · rintro ⟨p, hp, hv⟩
    have hpl : p < l.length := by omega
    refine ⟨p, by omega, ?_⟩
    rw [List.getD_eq_getElem l 0 hpl] at hv
    exact hv

theorem mem_iff_getD (l : List Int) (v : Int) :
    v ∈ l ↔ ∃ p, p < l.length ∧ l.getD p 0 = v := by
  have h := mem_take_iff_getD l l.length (Nat.le_refl _) v
  rwa [List.take_length] at h

theorem purgeDuplicates_spec (arr : List Int) :
    (dubMix.purgeDuplicates arr).Nodup ∧
      (∀ v, v ∈ dubMix.purgeDuplicates arr ↔ v ∈ arr) ∧
      (dubMix.purgeDuplicates arr).length ≤ arr.length ∧
      (arr ≠ [] → 1 ≤ (dubMix.purgeDuplicates arr).length) := by
  cases harr : arr with
  | nil => simp [dubMix.purgeDuplicates, dubMix.purgeLoop]
  | cons a tl =>
    rw [← harr]
    have hpos : 0 < arr.length := by rw [harr]; simp
    obtain ⟨r1, r2, r3, r4, r5⟩ := purgeLoop_spec (arr.length - 1) arr arr.length
      (by omega) (Nat.le_refl _) (by intro p q _ h1 h2; omega)
    have hle : (dubMix.purgeLoop (arr.length - 1) arr arr.length).2 ≤
        (dubMix.purgeLoop (arr.length - 1) arr arr.length).1.length := by omega
    have hlen : (dubMix.purgeDuplicates arr).length =
        (dubMix.purgeLoop (arr.length - 1) arr arr.length).2 := by
      simp only [dubMix.purgeDuplicates, List.length_take]
      omega
    refine ⟨nodup_take_of_getD _ _ hle r4, ?_, by omega, fun _ => by omega⟩
    intro v
    rw [mem_iff_getD arr v, ← r5 v]
    exact mem_take_iff_getD _ _ hle v

/-! ## purgePrimeNumbers -/

theorem isPrime_eq_true_iff (n : Int) : multiMix.isPrime n = true ↔ n ∈ PRIME_NUMBERS := by
  simp [multiMix.isPrime, binary_search]

theorem purgePrimesLoop_spec (k : Nat) :
    ∀ (arr : List Int) (newSize : Nat), k ≤ newSize → newSize ≤ arr.length →
      (∀ p, k ≤ p → p < newSize → multiMix.isPrime (arr.getD p 0) = false) →
      (multiMix.purgePrimesLoop k arr newSize).2 ≤ newSize ∧
      (multiMix.purgePrimesLoop k arr newSize).1.length = arr.length ∧
      (∀ p, p < (multiMix.purgePrimesLoop k arr newSize).2 →
        multiMix.isPrime ((multiMix.purgePrimesLoop k arr newSize).1.getD p 0) = false) ∧
      (∀ p, p < (multiMix.purgePrimesLoop k arr newSize).2 →
        ∃ q, q < newSize ∧
          (multiMix.purgePrimesLoop k arr newSize).1.getD p 0 = arr.getD q 0) := by
  induction k with
  | zero =>
    intro arr newSize _ _ H
    exact ⟨Nat.le_refl _, rfl, fun p hp => H p (Nat.zero_le p) hp, fun p hp => ⟨p, hp, rfl⟩⟩
  | succ i ih =>
    intro arr newSize h1 h2 H
    unfold multiMix.purgePrimesLoop
    by_cases hf : multiMix.isPrime (arr.getD i 0) = true
    · rw [if_pos hf]
      have hk : i < arr.length := by omega
      have hself := getD_set_self arr i (arr.getD (newSize - 1) 0) hk
      have hne := fun p hp => getD_set_ne arr i p (arr.getD (newSize - 1) 0) hp
      have H' : ∀ p, i ≤ p → p < newSize - 1 →
          multiMix.isPrime ((arr.set i (arr.getD (newSize - 1) 0)).getD p 0) = false := by
        intro p hip hp
        by_cases hpe : p = i
        · subst hpe
          rw [hself]
          exact H (newSize - 1) (by omega) (by omega)
        · rw [hne p hpe]
          exact H p (by omega) (by omega)
      obtain ⟨r1, r2, r3, r4⟩ := ih (arr.set i (arr.getD (newSize - 1) 0)) (newSize - 1)
        (by omega) (by rw [List.length_set]; omega) H'
      refine ⟨by omega, by rw [r2, List.length_set], r3, ?_⟩
      intro p hp
      obtain ⟨q, hq, he⟩ := r4 p hp
      by_cases hqe : q = i
      · subst hqe
        rw [hself] at he
        exact ⟨newSize - 1, by omega, he⟩
      · rw [hne q hqe] at he
        exact ⟨q, by omega, he⟩
    · rw [if_neg hf]
      apply ih arr newSize (by omega) h2
      intro p hip hp
      by_cases hpe : p = i
      · subst hpe
        simpa using hf
      · exact H p (by omega) hp

theorem purgePrimeNumbers_spec (arr : List Int) :
    (multiMix.purgePrimeNumbers arr).length ≤ arr.length ∧
      ∀ v ∈ multiMix.purgePrimeNumbers arr, v ∉ PRIME_NUMBERS ∧ v ∈ arr := by
  obtain ⟨r1, r2, r3, r4⟩ := purgePrimesLoop_spec arr.length arr arr.length
    (Nat.le_refl _) (Nat.le_refl _) (by intro p h1 h2; omega)
  have hle : (multiMix.purgePrimesLoop arr.length arr arr.length).2 ≤
      (multiMix.purgePrimesLoop arr.length arr arr.length).1.length := by omega
  refine ⟨?_, ?_⟩
  · simp only [multiMix.purgePrimeNumbers, List.length_take]
    omega
  · intro v hv
    obtain ⟨p, hp, he⟩ := (mem_take_iff_getD _ _ hle v).mp hv
    refine ⟨?_, ?_⟩
    · rw [← isPrime_eq_true_iff, ← he, r3 p hp]
      simp
    · obtain ⟨q, hq, hq2⟩ := r4 p hp
      exact (mem_iff_getD arr v).mpr ⟨q, hq, by rw [← hq2, he]⟩

theorem purgePrimeNumbers_zeros (n : Nat) :
    multiMix.purgePrimeNumbers (List.replicate n 0) = List.replicate n 0 := by
  have h : ∀ (k : Nat), multiMix.purgePrimesLoop k (List.replicate n 0) n =
      (List.replicate n 0, n) := by
    intro k
    induction k with
    | zero => rfl
    | succ i ih =>
      unfold multiMix.purgePrimesLoop
      have hz : (List.replicate n (0 : Int)).getD i 0 = 0 := by
        rw [List.getD_eq_getElem?_getD, List.getElem?_replicate]
        split <;> rfl
      have hnp : multiMix.isPrime 0 = false := by decide
      rw [hz, hnp]
      exact ih
  simp [multiMix.purgePrimeNumbers, h]

/-! ## dubMix: what the calls keep -/

theorem ping_values (m m' : numMixer) (buf out : List Int) (eng rest : List Nat) (b : Bool)
    (h : m.ping buf eng = .done (b, m', out, rest)) :
    out.length = buf.length ∧ b = (m.isActive && m.checkStateValid) ∧
      (b = false → out = buf ∧ rest = eng ∧ m' = m) ∧
      (b = true → ∀ v ∈ out, v ∈ m.dataset ∧ (m.controllerState = .EVEN → Even v) ∧
        (m.controllerState = .ODD → Odd v)) := by
  cases b with
  | false =>
    obtain ⟨hg, rfl, rfl, rfl⟩ := ping_done_false m m' buf out eng rest h
    refine ⟨rfl, hg.symm, fun _ => ⟨rfl, rfl, rfl⟩, ?_⟩
    intro hb
    cases hb
  | true =>
    obtain ⟨hg, _, hf⟩ := ping_done_true m m' buf out eng rest h
    obtain ⟨hlen, hall⟩ := fill_done m buf eng out rest hf
    refine ⟨hlen, hg.symm, ?_, fun _ => hall⟩
    intro hb
    cases hb

theorem dubMix_mkDefault_eq (rx rz : Nat) (eng : List Nat) :
    dubMix.mkDefault (rx :: rz :: eng) =
      .done (⟨3, ⟨1, (distr 10 20 rx : Nat), true, true, defaultDataset, .EVEN⟩,
        ⟨1, (distr 10 20 rz : Nat), true, true, defaultDataset, .ODD⟩⟩, eng) := rfl

theorem dubMix_mkDefault_done (eng rest : List Nat) (d : dubMix)
    (h : dubMix.mkDefault eng = .done (d, rest)) :
    ∃ rx rz : Nat, eng = rx :: rz :: rest ∧
      d = ⟨3, ⟨1, (distr 10 20 rx : Nat), true, true, defaultDataset, .EVEN⟩,
        ⟨1, (distr 10 20 rz : Nat), true, true, defaultDataset, .ODD⟩⟩ := by
  cases eng with
  | nil => simp [dubMix.mkDefault, numMixer.mkDefault, Run.bind] at h
  | cons rx eng =>
    cases eng with
    | nil => simp [dubMix.mkDefault, numMixer.mkDefault, Run.bind] at h
    | cons rz eng =>
      rw [dubMix_mkDefault_eq] at h
      simp only [Run.done.injEq, Prod.mk.injEq] at h
      obtain ⟨rfl, rfl⟩ := h
      exact ⟨rx, rz, rfl, rfl⟩

theorem dubMix_ping_done (d d' : dubMix) (eng rest : List Nat) (out : List Int)
    (h : d.ping eng = .done (out, d', rest)) :
    d'.ctl = d.ctl ∧
      (d'.x.dataset = d.x.dataset ∧ d'.x.evenValid = d.x.evenValid ∧
        d'.x.oddValid = d.x.oddValid ∧ d'.x.controllerState = d.x.controllerState) ∧
      (d'.z.dataset = d.z.dataset ∧ d'.z.evenValid = d.z.evenValid ∧
        d'.z.oddValid = d.z.oddValid ∧ d'.z.controllerState = d.z.controllerState) := by
  unfold dubMix.ping at h
  split at h
  · simp only [dubMix.ctl1, Run.bind_eq_done, Run.done.injEq, Prod.mk.injEq] at h
    obtain ⟨⟨b, x', o, e⟩, hx, _, rfl, _⟩ := h
    obtain ⟨f1, f2, f3, f4, _⟩ := ping_done_fields _ _ _ _ _ _ _ hx
    exact ⟨rfl, ⟨f1, f2, f3, f4⟩, ⟨rfl, rfl, rfl, rfl⟩⟩
  · split at h
    · simp only [dubMix.ctl2, Run.bind_eq_done, Run.done.injEq, Prod.mk.injEq] at h
      obtain ⟨⟨b, z', o, e⟩, hz, _, rfl, _⟩ := h
      obtain ⟨f1, f2, f3, f4, _⟩ := ping_done_fields _ _ _ _ _ _ _ hz
      exact ⟨rfl, ⟨rfl, rfl, rfl, rfl⟩, ⟨f1, f2, f3, f4⟩⟩
    · split at h
      · simp only [dubMix.ctl3, Run.bind_eq_done, Run.done.injEq, Prod.mk.injEq] at h
        obtain ⟨⟨b, x', o, e⟩, hx, ⟨b2, z', o2, e2⟩, hz, _, rfl, _⟩ := h
        obtain ⟨f1, f2, f3, f4, _⟩ := ping_done_fields _ _ _ _ _ _ _ hx
        obtain ⟨g1, g2, g3, g4, _⟩ := ping_done_fields _ _ _ _ _ _ _ hz
        exact ⟨rfl, ⟨f1, f2, f3, f4⟩, ⟨g1, g2, g3, g4⟩⟩
      · split at h
        · simp only [dubMix.ctl4, Run.bind_eq_done, Run.done.injEq, Prod.mk.injEq] at h
          obtain ⟨⟨b, x', o, e⟩, hx, ⟨b2, z', o2, e2⟩, hz, _, rfl, _⟩ := h
          obtain ⟨f1, f2, f3, f4, _⟩ := ping_done_fields _ _ _ _ _ _ _ hx
          obtain ⟨g1, g2, g3, g4, _⟩ := ping_done_fields _ _ _ _ _ _ _ hz
          exact ⟨rfl, ⟨f1, f2, f3, f4⟩, ⟨g1, g2, g3, g4⟩⟩
        · simp only [Run.done.injEq, Prod.mk.injEq] at h
          obtain ⟨_, rfl, _⟩ := h
          exact ⟨rfl, ⟨rfl, rfl, rfl, rfl⟩, ⟨rfl, rfl, rfl, rfl⟩⟩

theorem runDubCalls_modes (calls : List DubCall) :
    ∀ (d d' : dubMix) (eng rest : List Nat) (outs : List (List Int)),
      runDubCalls d calls eng = .done (d', outs, rest) →
      d'.x.controllerState = d.x.controllerState ∧
        d'.z.controllerState = d.z.controllerState := by
  induction calls with
  | nil =>
    intro d d' eng rest outs h
    simp only [runDubCalls, Run.done.injEq, Prod.mk.injEq] at h
    obtain ⟨rfl, _⟩ := h
    exact ⟨rfl, rfl⟩
  | cons c calls ih =>
    intro d d' eng rest outs h
    cases c with
    | setCtl val =>
      simp only [runDubCalls] at h
      have h' := ih (d.setCtl val) d' eng rest outs h
      exact h'
    | ping =>
      simp only [runDubCalls, Run.bind_eq_done, Run.done.injEq, Prod.mk.injEq] at h
      obtain ⟨⟨o, d1, e1⟩, hp, ⟨d2, os, e2⟩, hr, rfl, _⟩ := h
      obtain ⟨_, ⟨_, _, _, hx⟩, ⟨_, _, _, hz⟩⟩ := dubMix_ping_done d d1 eng e1 o hp
      obtain ⟨h1, h2⟩ := ih d1 d2 e1 e2 os hr
      exact ⟨h1.trans hx, h2.trans hz⟩
    | addAssign obj =>
      simp only [runDubCalls] at h
      have h' := ih (d.addAssign obj) d' eng rest outs h
      exact h'

theorem inv_mkDefault (eng rest : List Nat) (d : dubMix)
    (h : dubMix.mkDefault eng = .done (d, rest)) : d.inv := by
  obtain ⟨rx, rz, _, rfl⟩ := dubMix_mkDefault_done eng rest d h
  exact ⟨⟨rfl, rfl, fun v hv => (mem_defaultDataset v).mp hv⟩,
    ⟨rfl, rfl, fun v hv => (mem_defaultDataset v).mp hv⟩⟩

theorem inv_ping (d d' : dubMix) (eng rest : List Nat) (out : List Int) (hd : d.inv)
    (h : d.ping eng = .done (out, d', rest)) : d'.inv := by
  obtain ⟨_, ⟨x1, x2, _, x4⟩, ⟨z1, _, z3, z4⟩⟩ := dubMix_ping_done d d' eng rest out h
  unfold dubMix.inv at hd ⊢
  rw [x1, x2, x4, z1, z3, z4]
  exact hd

theorem inv_addAssign (d obj : dubMix) (hd : d.inv) (ho : obj.inv) : (d.addAssign obj).inv := by
  obtain ⟨⟨x1, x2, x3⟩, ⟨z1, z2, z3⟩⟩ := hd
  obtain ⟨⟨_, _, ox⟩, ⟨_, _, oz⟩⟩ := ho
  refine ⟨⟨x1, ?_, ?_⟩, ⟨z1, ?_, ?_⟩⟩
  · show (d.x.evenValid || obj.x.evenValid) = true
    rw [x2]; rfl
  · intro v hv
    rcases List.mem_append.mp hv with h | h
    · exact x3 v h
    · exact ox v h
  · show (d.z.oddValid || obj.z.oddValid) = true
    rw [z2]; rfl
  · intro v hv
    rcases List.mem_append.mp hv with h | h
    · exact z3 v h
    · exact oz v h

theorem inv_of_reachable (d : dubMix) (h : dubMix.Reachable d) : d.inv := by
  induction h with
  | mkDefault eng rest d h => exact inv_mkDefault eng rest d h
  | setCtl d val _ ih => exact ih
  | ping d d' eng rest out _ hp ih => exact inv_ping d d' eng rest out ih hp
  | addAssign d obj _ _ ih1 ih2 => exact inv_addAssign d obj ih1 ih2

theorem inv_runDubCalls (calls : List DubCall) :
    ∀ (d d' : dubMix) (eng rest : List Nat) (outs : List (List Int)), d.inv →
      (∀ c ∈ calls, DubCall.isAddAssign c = false) →
      runDubCalls d calls eng = .done (d', outs, rest) → d'.inv := by
  induction calls with
  | nil =>
    intro d d' eng rest outs hd _ h
    simp only [runDubCalls, Run.done.injEq, Prod.mk.injEq] at h
    obtain ⟨rfl, _⟩ := h
    exact hd
  | cons c calls ih =>
    intro d d' eng rest outs hd hc h
    have hc' : ∀ c ∈ calls, DubCall.isAddAssign c = false :=
      fun c hmem => hc c (List.mem_cons_of_mem _ hmem)
    cases c with
    | setCtl val =>
      simp only [runDubCalls] at h
      exact ih (d.setCtl val) d' eng rest outs hd hc' h
    | ping =>
      simp only [runDubCalls, Run.bind_eq_done, Run.done.injEq, Prod.mk.injEq] at h
      obtain ⟨⟨o, d1, e1⟩, hp, ⟨d2, os, e2⟩, hr, rfl, _⟩ := h
      exact ih d1 d2 e1 e2 os (inv_ping d d1 eng e1 o hd hp) hc' hr
    | addAssign obj =>
      have hfalse := hc _ (List.mem_cons_self _ _)
      simp [DubCall.isAddAssign] at hfalse

/-! ## dubMix: when ping returns -/

theorem two_pings (x z : numMixer) (n : Nat) (t1 t2 : List Nat)
    (h1 : n ≤ accepted x.dataset (againOf x.controllerState) t1)
    (h2 : n ≤ accepted z.dataset (againOf z.controllerState) t2) :
    ∃ (bx : Bool) (x' : numMixer) (xs : List Int) (r1 : List Nat)
      (bz : Bool) (z' : numMixer) (zs : List Int) (rest : List Nat),
      x.ping (List.replicate n 0) (t1 ++ t2) = .done (bx, x', xs, r1 ++ t2) ∧
      z.ping (List.replicate n 0) (r1 ++ t2) = .done (bz, z', zs, rest) := by
  obtain ⟨bx, x', xs, r1, hx⟩ := ping_returns_split x (List.replicate n 0) t1 t2
    (by rw [List.length_replicate]; exact h1)
  obtain ⟨bz, z', zs, rest, hz⟩ := ping_returns z (List.replicate n 0) (r1 ++ t2)
    (by rw [List.length_replicate, accepted_append]; omega)
  exact ⟨bx, x', xs, r1, bz, z', zs, rest, hx, hz⟩

theorem mixedOut_length (size : Nat) (xs zs : List Int) :
    (dubMix.mixedOut size xs zs).length = 2 * size := by
  simp [dubMix.mixedOut]

theorem mixedOut_getD (size : Nat) (xs zs : List Int) (i : Nat) (hi : i < 2 * size) :
    (dubMix.mixedOut size xs zs).getD i 0 =
      if i % 2 = 0 then xs.getD (i / 2) 0 else zs.getD (i / 2) 0 := by
  rw [List.getD_eq_getElem?_getD]
  simp [dubMix.mixedOut, List.getElem?_map, List.getElem?_range hi]

theorem getD_mem_of_lt (l : List Int) (k : Nat) (hk : k < l.length) : l.getD k 0 ∈ l := by
  rw [List.getD_eq_getElem l 0 hk]
  exact List.getElem_mem hk

theorem getD_replicate_zero (n k : Nat) : (List.replicate n (0 : Int)).getD k 0 = 0 := by
  rw [List.getD_eq_getElem?_getD, List.getElem?_replicate]
  split <;> rfl

theorem dubMix_ping1 (d : dubMix) (hctl : d.ctl = 1) (eng : List Nat)
    (h : 10 ≤ accepted d.x.dataset (againOf d.x.controllerState) eng) :
    ∃ (bx : Bool) (x' : numMixer) (xs : List Int) (rest : List Nat),
      d.x.ping (List.replicate 10 0) eng = .done (bx, x', xs, rest) ∧
      d.ping eng = .done (xs, { d with x := x' }, rest) := by
  obtain ⟨bx, x', xs, rest, hx⟩ := ping_returns d.x (List.replicate 10 0) eng
    (by rw [List.length_replicate]; exact h)
  refine ⟨bx, x', xs, rest, hx, ?_⟩
  unfold dubMix.ping
  rw [if_pos hctl]
  unfold dubMix.ctl1
  rw [hx]
  rfl

theorem dubMix_ping2 (d : dubMix) (hctl : d.ctl = 2) (eng : List Nat)
    (h : 10 ≤ accepted d.z.dataset (againOf d.z.controllerState) eng) :
    ∃ (bz : Bool) (z' : numMixer) (zs : List Int) (rest : List Nat),
      d.z.ping (List.replicate 10 0) eng = .done (bz, z', zs, rest) ∧
      d.ping eng = .done (zs, { d with z := z' }, rest) := by
  obtain ⟨bz, z', zs, rest, hz⟩ := ping_returns d.z (List.replicate 10 0) eng
    (by rw [List.length_replicate]; exact h)
  refine ⟨bz, z', zs, rest, hz, ?_⟩
  unfold dubMix.ping
  rw [if_neg (by rw [hctl]; decide), if_pos hctl]
  unfold dubMix.ctl2
  rw [hz]
  rfl

theorem dubMix_ping3 (d : dubMix) (hctl : d.ctl = 3) (t1 t2 : List Nat)
    (h1 : 10 ≤ accepted d.x.dataset (againOf d.x.controllerState) t1)
    (h2 : 10 ≤ accepted d.z.dataset (againOf d.z.controllerState) t2) :
    ∃ (bx : Bool) (x' : numMixer) (xs : List Int) (r1 : List Nat)
      (bz : Bool) (z' : numMixer) (zs : List Int) (rest : List Nat),
      d.x.ping (List.replicate 10 0) (t1 ++ t2) = .done (bx, x', xs, r1) ∧
      d.z.ping (List.replicate 10 0) r1 = .done (bz, z', zs, rest) ∧
      d.ping (t1 ++ t2) = .done (dubMix.mixedOut 10 xs zs, { d with x := x', z := z' }, rest) := by
  obtain ⟨bx, x', xs, r1, bz, z', zs, rest, hx, hz⟩ := two_pings d.x d.z 10 t1 t2 h1 h2
  refine ⟨bx, x', xs, r1 ++ t2, bz, z', zs, rest, hx, hz, ?_⟩
  unfold dubMix.ping
  rw [if_neg (by rw [hctl]; decide), if_neg (by rw [hctl]; decide), if_pos hctl]
  unfold dubMix.ctl3
  rw [hx]
  simp only [Run.bind]
  rw [hz]

theorem dubMix_ping4 (d : dubMix) (hctl : d.ctl = 4) (t1 t2 : List Nat)
    (h1 : 10 ≤ accepted d.x.dataset (againOf d.x.controllerState) t1)
    (h2 : 10 ≤ accepted d.z.dataset (againOf d.z.controllerState) t2) :
    ∃ (bx : Bool) (x' : numMixer) (xs : List Int) (r1 : List Nat)
      (bz : Bool) (z' : numMixer) (zs : List Int) (rest : List Nat),
      d.x.ping (List.replicate 10 0) (t1 ++ t2) = .done (bx, x', xs, r1) ∧
      d.z.ping (List.replicate 10 0) r1 = .done (bz, z', zs, rest) ∧
      d.ping (t1 ++ t2) = .done (dubMix.purgeDuplicates xs ++ dubMix.purgeDuplicates zs,
        { d with x := x', z := z' }, rest) := by
  obtain ⟨bx, x', xs, r1, bz, z', zs, rest, hx, hz⟩ := two_pings d.x d.z 10 t1 t2 h1 h2
  refine ⟨bx, x', xs, r1 ++ t2, bz, z', zs, rest, hx, hz, ?_⟩
  unfold dubMix.ping
  rw [if_neg (by rw [hctl]; decide), if_neg (by rw [hctl]; decide),
    if_neg (by rw [hctl]; decide), if_pos hctl]
  unfold dubMix.ctl4
  rw [hx]
  simp only [Run.bind]
  rw [hz]

theorem inv_guards (d : dubMix) (hd : d.inv) :
    (d.x.isActive && d.x.checkStateValid) = d.x.isActive ∧
      (d.z.isActive && d.z.checkStateValid) = d.z.isActive := by
  obtain ⟨⟨x1, x2, _⟩, ⟨z1, z2, _⟩⟩ := hd
  simp [numMixer.checkStateValid, x1, x2, z1, z2]

theorem ping_active_pinned (m m' : numMixer) (buf out : List Int) (eng rest : List Nat) (b : Bool)
    (hg : (m.isActive && m.checkStateValid) = true)
    (h : m.ping buf eng = .done (b, m', out, rest)) :
    b = true ∧ m' = { m with countDown := m.countDown - 1 } ∧ out.length = buf.length ∧
      ∀ v ∈ out, v ∈ m.dataset ∧ (m.controllerState = .EVEN → Even v) ∧
        (m.controllerState = .ODD → Odd v) := by
  obtain ⟨hlen, hb, _, hv⟩ := ping_values m m' buf out eng rest b h
  rw [hg] at hb
  subst hb
  obtain ⟨_, hm, _⟩ := ping_done_true m m' buf out eng rest h
  exact ⟨rfl, hm, hlen, hv rfl⟩

/-! ## Claims on dubMix -/

/-- C11: a default-constructed dubMix (the constructor returns once the engine has
supplied the two countdown draws) has ctl 3, `_x` in `EVEN` mode and `_z` in `ODD`
mode, both over the dataset 1..100 with both parities valid; and over every
sequence of setCtl, ping and operator+= calls `_x` stays in `EVEN` mode and `_z`
in `ODD` mode. -/
theorem dubMix_pinned_modes :
    (∀ (rx rz : Nat) (eng : List Nat), ∃ d : dubMix,
      dubMix.mkDefault (rx :: rz :: eng) = .done (d, eng) ∧ d.ctl = 3 ∧
      d.x.controllerState = .EVEN ∧ d.z.controllerState = .ODD ∧
      d.x.dataset = defaultDataset ∧ d.z.dataset = defaultDataset ∧
      d.x.evenValid = true ∧ d.x.oddValid = true ∧
      d.z.evenValid = true ∧ d.z.oddValid = true) ∧
    (∀ (d d' : dubMix) (calls : List DubCall) (eng rest : List Nat) (outs : List (List Int)),
      d.x.controllerState = .EVEN → d.z.controllerState = .ODD →
      runDubCalls d calls eng = .done (d', outs, rest) →
      d'.x.controllerState = .EVEN ∧ d'.z.controllerState = .ODD) := by
  refine ⟨?_, ?_⟩
  · intro rx rz eng
    exact ⟨_, dubMix_mkDefault_eq rx rz eng, rfl, rfl, rfl, rfl, rfl, rfl, rfl, rfl, rfl⟩
  · intro d d' calls eng rest outs hx hz h
    obtain ⟨h1, h2⟩ := runDubCalls_modes calls d d' eng rest outs h
    exact ⟨h1.trans hx, h2.trans hz⟩

set_option maxRecDepth 100000 in
theorem dubMix_pinned_modes_witness :
    (freshDub.x.controllerState = .EVEN ∧ freshDub.z.controllerState = .ODD ∧
      runDubCalls freshDub [.setCtl 1, .ping, .addAssign freshDub, .setCtl 2, .ping]
          [1, 3, 5, 7, 9, 11, 13, 15, 17, 19, 0, 2, 4, 6, 8, 10, 12, 14, 16, 18] =
        .done (⟨2, ⟨2, 19, true, true, defaultDataset ++ defaultDataset, .EVEN⟩,
            ⟨2, 19, true, true, defaultDataset ++ defaultDataset, .ODD⟩⟩,
          [[2, 4, 6, 8, 10, 12, 14, 16, 18, 20], [1, 3, 5, 7, 9, 11, 13, 15, 17, 19]], [])) ∧
      ((⟨2, ⟨2, 19, true, true, defaultDataset ++ defaultDataset, .EVEN⟩,
            ⟨2, 19, true, true, defaultDataset ++ defaultDataset, .ODD⟩⟩ :
              dubMix).x.controllerState = .EVEN ∧
        (⟨2, ⟨2, 19, true, true, defaultDataset ++ defaultDataset, .EVEN⟩,
            ⟨2, 19, true, true, defaultDataset ++ defaultDataset, .ODD⟩⟩ :
              dubMix).z.controllerState = .ODD) :=
  ⟨⟨by decide, by decide, by decide⟩,
    dubMix_pinned_modes.2 freshDub
      ⟨2, ⟨2, 19, true, true, defaultDataset ++ defaultDataset, .EVEN⟩,
        ⟨2, 19, true, true, defaultDataset ++ defaultDataset, .ODD⟩⟩
      [.setCtl 1, .ping, .addAssign freshDub, .setCtl 2, .ping]
      [1, 3, 5, 7, 9, 11, 13, 15, 17, 19, 0, 2, 4, 6, 8, 10, 12, 14, 16, 18] []
      [[2, 4, 6, 8, 10, 12, 14, 16, 18, 20], [1, 3, 5, 7, 9, 11, 13, 15, 17, 19]]
      (by decide) (by decide) (by decide)⟩

/-- C12: for every dubMix whose `_x` and `_z` are both active, on every tape that
holds ten draws of an even value for `_x` followed by ten draws of an odd value
for `_z`, ping under ctl 3 returns exactly 20 values: with `xs` the 10 values the
ping of `_x` sampled (all even) and `zs` the 10 values the ping of `_z` sampled
(all odd), the value at index `2k` is `xs[k]` and the value at index `2k + 1` is
`zs[k]`, for every `k` from 0 to 9. -/
theorem ctl3_interleaves (d : dubMix) (hd : dubMix.Reachable d) (hctl : d.ctl = 3)
    (hx : d.x.isActive = true) (hz : d.z.isActive = true) (t1 t2 : List Nat)
    (h1 : 10 ≤ accepted d.x.dataset againEven t1)
    (h2 : 10 ≤ accepted d.z.dataset againOdd t2) :
    ∃ (x' z' : numMixer) (xs zs out : List Int) (r1 rest : List Nat),
      d.x.ping (List.replicate 10 0) (t1 ++ t2) = .done (true, x', xs, r1) ∧
      d.z.ping (List.replicate 10 0) r1 = .done (true, z', zs, rest) ∧
      d.ping (t1 ++ t2) = .done (out, ⟨d.ctl, x', z'⟩, rest) ∧
      out.length = 20 ∧ xs.length = 10 ∧ zs.length = 10 ∧
      ∀ k, k < 10 →
        out.getD (2 * k) 0 = xs.getD k 0 ∧ Even (xs.getD k 0) ∧
        out.getD (2 * k + 1) 0 = zs.getD k 0 ∧ Odd (zs.getD k 0) := by
  have hinv := inv_of_reachable d hd
  obtain ⟨gx, gz⟩ := inv_guards d hinv
  obtain ⟨⟨x1, _, _⟩, ⟨z1, _, _⟩⟩ := hinv
  obtain ⟨bx, x', xs, r1, bz, z', zs, rest, px, pz, pd⟩ := dubMix_ping3 d hctl t1 t2
    (by rw [x1]; exact h1) (by rw [z1]; exact h2)
  obtain ⟨rfl, _, lx, vx⟩ := ping_active_pinned _ _ _ _ _ _ _ (gx.trans hx) px
  obtain ⟨rfl, _, lz, vz⟩ := ping_active_pinned _ _ _ _ _ _ _ (gz.trans hz) pz
  rw [List.length_replicate] at lx lz
  refine ⟨x', z', xs, zs, _, r1, rest, px, pz, pd, by rw [mixedOut_length], lx, lz, ?_⟩
  intro k hk
  refine ⟨?_, ?_, ?_, ?_⟩
  · rw [mixedOut_getD 10 xs zs (2 * k) (by omega)]
    have h0 : 2 * k % 2 = 0 := by omega
    have h3 : 2 * k / 2 = k := by omega
    rw [if_pos h0, h3]
  · exact (vx _ (getD_mem_of_lt xs k (by omega))).2.1 x1
  · rw [mixedOut_getD 10 xs zs (2 * k + 1) (by omega)]
    have h0 : ¬ (2 * k + 1) % 2 = 0 := by omega
    have h3 : (2 * k + 1) / 2 = k := by omega
    rw [if_neg h0, h3]
  · exact (vz _ (getD_mem_of_lt zs k (by omega))).2.2 z1

theorem ctl3_interleaves_witness :
    (freshDub.ctl = 3 ∧ freshDub.x.isActive = true ∧ freshDub.z.isActive = true ∧
      10 ≤ accepted freshDub.x.dataset againEven evenDraws ∧
      10 ≤ accepted freshDub.z.dataset againOdd oddDraws) ∧
    ∃ (x' z' : numMixer) (xs zs out : List Int) (r1 rest : List Nat),
      freshDub.x.ping (List.replicate 10 0) (evenDraws ++ oddDraws) = .done (true, x', xs, r1) ∧
      freshDub.z.ping (List.replicate 10 0) r1 = .done (true, z', zs, rest) ∧
      freshDub.ping (evenDraws ++ oddDraws) = .done (out, ⟨freshDub.ctl, x', z'⟩, rest) ∧
      out.length = 20 ∧ xs.length = 10 ∧ zs.length = 10 ∧
      ∀ k, k < 10 →
        out.getD (2 * k) 0 = xs.getD k 0 ∧ Even (xs.getD k 0) ∧
        out.getD (2 * k + 1) 0 = zs.getD k 0 ∧ Odd (zs.getD k 0) :=
  ⟨⟨by decide, by decide, by decide, by decide, by decide⟩,
    ctl3_interleaves freshDub (dubMix.Reachable.mkDefault [0, 0] [] freshDub (by decide))
      (by decide) (by decide) (by decide) evenDraws oddDraws (by decide) (by decide)⟩

/-- C13 (counterexample): the dubMix built with both countdowns at 10 is pinged ten
times under ctl 2, which brings the countdown of `_z` to 0; after `setCtl(3)` the
next ping returns 20 values whose odd indices all hold 0, so the value at index 1
is not odd. -/
theorem ctl3_zero_at_odd_index :
    dubMix.mkDefault [0, 0] = .done (freshDub, []) ∧
      runDubCalls freshDub (.setCtl 2 :: List.replicate 10 .ping ++ [.setCtl 3])
          (List.replicate 100 0) =
        .done (spentDub, List.replicate 10 (List.replicate 10 1), []) ∧
      spentDub.ctl = 3 ∧
      spentDub.ping evenDraws =
        .done ([2, 0, 4, 0, 6, 0, 8, 0, 10, 0, 12, 0, 14, 0, 16, 0, 18, 0, 20, 0],
          ⟨3, ⟨1, 9, true, true, defaultDataset, .EVEN⟩,
            ⟨1, 0, true, true, defaultDataset, .ODD⟩⟩, []) ∧
      ¬ Odd (([2, 0, 4, 0, 6, 0, 8, 0, 10, 0, 12, 0, 14, 0, 16, 0, 18, 0, 20, 0] :
        List Int).getD 1 0) := by
  refine ⟨by decide, by decide, by decide, by decide, by decide⟩

/-- C13 (amended): for every dubMix reached from the default constructor by setCtl
and ping calls, ping under ctl 3 returns (on every tape that holds ten draws of an
even value followed by ten draws of an odd value) exactly 20 integers; every
value at an even index is even; every value at an odd index is odd as long as
`_z` is active, and is 0 once `_z` is inactive. -/
theorem ctl3_alternates (eng0 rest0 eng1 rest1 : List Nat) (d0 d : dubMix)
    (calls : List DubCall) (outs : List (List Int))
    (h0 : dubMix.mkDefault eng0 = .done (d0, rest0))
    (hcalls : ∀ c ∈ calls, DubCall.isAddAssign c = false)
    (hrun : runDubCalls d0 calls eng1 = .done (d, outs, rest1))
    (hctl : d.ctl = 3) (t1 t2 : List Nat)
    (h1 : 10 ≤ accepted d.x.dataset againEven t1)
    (h2 : 10 ≤ accepted d.z.dataset againOdd t2) :
    ∃ (out : List Int) (d' : dubMix) (rest : List Nat),
      d.ping (t1 ++ t2) = .done (out, d', rest) ∧ out.length = 20 ∧
      (∀ i, i < 20 → i % 2 = 0 → Even (out.getD i 0)) ∧
      (d.z.isActive = true → ∀ i, i < 20 → i % 2 = 1 → Odd (out.getD i 0)) ∧
      (d.z.isActive = false → ∀ i, i < 20 → i % 2 = 1 → out.getD i 0 = 0) := by
  have hinv := inv_runDubCalls calls d0 d eng1 rest1 outs (inv_mkDefault eng0 rest0 d0 h0)
    hcalls hrun
  obtain ⟨gx, gz⟩ := inv_guards d hinv
  obtain ⟨⟨x1, _, _⟩, ⟨z1, _, _⟩⟩ := hinv
  obtain ⟨bx, x', xs, r1, bz, z', zs, rest, px, pz, pd⟩ := dubMix_ping3 d hctl t1 t2
    (by rw [x1]; exact h1) (by rw [z1]; exact h2)
  obtain ⟨lx, _, fx, vx⟩ := ping_values _ _ _ _ _ _ _ px
  obtain ⟨lz, bzeq, fz, vz⟩ := ping_values _ _ _ _ _ _ _ pz
  rw [List.length_replicate] at lx lz
  rw [gz] at bzeq
  refine ⟨_, _, rest, pd, by rw [mixedOut_length], ?_, ?_, ?_⟩
  · intro i hi h0
    rw [mixedOut_getD 10 xs zs i (by omega), if_pos h0]
    cases bx with
    | false =>
      rw [(fx rfl).1, getD_replicate_zero]
      exact ⟨0, rfl⟩
    | true => exact (vx rfl _ (getD_mem_of_lt xs (i / 2) (by omega))).2.1 x1
  · intro hz i hi h1
    rw [mixedOut_getD 10 xs zs i (by omega), if_neg (by omega)]
    rw [hz] at bzeq
    exact (vz bzeq _ (getD_mem_of_lt zs (i / 2) (by omega))).2.2 z1
  · intro hz i hi h1
    rw [mixedOut_getD 10 xs zs i (by omega), if_neg (by omega)]
    rw [hz] at bzeq
    rw [(fz bzeq).1, getD_replicate_zero]

theorem ctl3_alternates_witness :
    (dubMix.mkDefault [0, 0] = .done (freshDub, []) ∧
      (∀ c ∈ [DubCall.setCtl 1, DubCall.ping, DubCall.setCtl 3],
        DubCall.isAddAssign c = false) ∧
      runDubCalls freshDub [.setCtl 1, .ping, .setCtl 3] evenDraws =
        .done (⟨3, ⟨1, 9, true, true, defaultDataset, .EVEN⟩,
          ⟨1, 10, true, true, defaultDataset, .ODD⟩⟩, [[2, 4, 6, 8, 10, 12, 14, 16, 18, 20]], []) ∧
      10 ≤ accepted defaultDataset againEven evenDraws ∧
      10 ≤ accepted defaultDataset againOdd oddDraws) ∧
    ∃ (out : List Int) (d' : dubMix) (rest : List Nat),
      (⟨3, ⟨1, 9, true, true, defaultDataset, .EVEN⟩,
          ⟨1, 10, true, true, defaultDataset, .ODD⟩⟩ : dubMix).ping (evenDraws ++ oddDraws) =
        .done (out, d', rest) ∧ out.length = 20 ∧
      (∀ i, i < 20 → i % 2 = 0 → Even (out.getD i 0)) ∧
      ((⟨3, ⟨1, 9, true, true, defaultDataset, .EVEN⟩,
          ⟨1, 10, true, true, defaultDataset, .ODD⟩⟩ : dubMix).z.isActive = true →
        ∀ i, i < 20 → i % 2 = 1 → Odd (out.getD i 0)) ∧
      ((⟨3, ⟨1, 9, true, true, defaultDataset, .EVEN⟩,
          ⟨1, 10, true, true, defaultDataset, .ODD⟩⟩ : dubMix).z.isActive = false →
        ∀ i, i < 20 → i % 2 = 1 → out.getD i 0 = 0) :=
  ⟨⟨by decide, by decide, by decide, by decide, by decide⟩,
    ctl3_alternates [0, 0] [] evenDraws [] freshDub
      ⟨3, ⟨1, 9, true, true, defaultDataset, .EVEN⟩, ⟨1, 10, true, true, defaultDataset, .ODD⟩⟩
      [.setCtl 1, .ping, .setCtl 3] [[2, 4, 6, 8, 10, 12, 14, 16, 18, 20]]
      (by decide) (by decide) (by decide) (by decide) evenDraws oddDraws
      (by decide) (by decide)⟩

/-- C14: for every dubMix with an active `_x`, ping under ctl 1 returns (on every
tape that holds ten draws of an even value) exactly 10 values, all even and from
1 to 100, takes one off the countdown of `_x` and leaves `_z` and ctl as they were;
with an active `_z`, ping under ctl 2 returns exactly 10 odd values, takes one off
the countdown of `_z` only and leaves `_x` and ctl as they were. -/
theorem ctl1_ctl2_frame (d : dubMix) (hd : dubMix.Reachable d) (eng : List Nat) :
    (d.ctl = 1 → d.x.isActive = true → 10 ≤ accepted d.x.dataset againEven eng →
      ∃ (out : List Int) (rest : List Nat),
        d.ping eng =
          .done (out, ⟨d.ctl, { d.x with countDown := d.x.countDown - 1 }, d.z⟩, rest) ∧
        out.length = 10 ∧ ∀ v ∈ out, Even v ∧ 1 ≤ v ∧ v ≤ 100) ∧
    (d.ctl = 2 → d.z.isActive = true → 10 ≤ accepted d.z.dataset againOdd eng →
      ∃ (out : List Int) (rest : List Nat),
        d.ping eng =
          .done (out, ⟨d.ctl, d.x, { d.z with countDown := d.z.countDown - 1 }⟩, rest) ∧
        out.length = 10 ∧ ∀ v ∈ out, Odd v ∧ 1 ≤ v ∧ v ≤ 100) := by
  have hinv := inv_of_reachable d hd
  obtain ⟨gx, gz⟩ := inv_guards d hinv
  obtain ⟨⟨x1, _, x3⟩, ⟨z1, _, z3⟩⟩ := hinv
  refine ⟨?_, ?_⟩
  · intro hctl hx h
    obtain ⟨bx, x', xs, rest, px, pd⟩ := dubMix_ping1 d hctl eng (by rw [x1]; exact h)
    obtain ⟨rfl, rfl, lx, vx⟩ := ping_active_pinned _ _ _ _ _ _ _ (gx.trans hx) px
    rw [List.length_replicate] at lx
    exact ⟨xs, rest, pd, lx, fun v hv => ⟨(vx v hv).2.1 x1, x3 v (vx v hv).1⟩⟩
  · intro hctl hz h
    obtain ⟨bz, z', zs, rest, pz, pd⟩ := dubMix_ping2 d hctl eng (by rw [z1]; exact h)
    obtain ⟨rfl, rfl, lz, vz⟩ := ping_active_pinned _ _ _ _ _ _ _ (gz.trans hz) pz
    rw [List.length_replicate] at lz
    exact ⟨zs, rest, pd, lz, fun v hv => ⟨(vz v hv).2.2 z1, z3 v (vz v hv).1⟩⟩

theorem ctl1_ctl2_frame_witness :
    ((freshDub.setCtl 1).ctl = 1 ∧ (freshDub.setCtl 1).x.isActive = true ∧
      10 ≤ accepted (freshDub.setCtl 1).x.dataset againEven evenDraws) ∧
    ∃ (out : List Int) (rest : List Nat),
      (freshDub.setCtl 1).ping evenDraws =
        .done (out, ⟨(freshDub.setCtl 1).ctl,
          { (freshDub.setCtl 1).x with countDown := (freshDub.setCtl 1).x.countDown - 1 },
          (freshDub.setCtl 1).z⟩, rest) ∧
      out.length = 10 ∧ ∀ v ∈ out, Even v ∧ 1 ≤ v ∧ v ≤ 100 :=
  ⟨⟨by decide, by decide, by decide⟩,
    (ctl1_ctl2_frame (freshDub.setCtl 1)
      (dubMix.Reachable.setCtl freshDub 1
        (dubMix.Reachable.mkDefault [0, 0] [] freshDub (by decide))) evenDraws).1
      (by decide) (by decide) (by decide)⟩

/-- C15: for every dubMix state, ping under ctl 4 returns (on every tape that holds
ten accepted draws for `_x` followed by ten accepted draws for `_z`)
purgeDuplicates of the 10-value buffer pinged from `_x` followed by
purgeDuplicates of the 10-value buffer pinged from `_z`: a part with no repeated
value followed by a part with no repeated value, of total length at least 2 and
at most 20; when both mixers are active the first part is all even and the second
all odd. -/
theorem ctl4_purged (d : dubMix) (hctl : d.ctl = 4) (t1 t2 : List Nat)
    (h1 : 10 ≤ accepted d.x.dataset (againOf d.x.controllerState) t1)
    (h2 : 10 ≤ accepted d.z.dataset (againOf d.z.controllerState) t2) :
    ∃ (bx bz : Bool) (x' z' : numMixer) (xs zs : List Int) (r1 rest : List Nat),
      d.x.ping (List.replicate 10 0) (t1 ++ t2) = .done (bx, x', xs, r1) ∧
      d.z.ping (List.replicate 10 0) r1 = .done (bz, z', zs, rest) ∧
      d.ping (t1 ++ t2) =
        .done (dubMix.purgeDuplicates xs ++ dubMix.purgeDuplicates zs, ⟨d.ctl, x', z'⟩, rest) ∧
      (dubMix.purgeDuplicates xs).Nodup ∧ (dubMix.purgeDuplicates zs).Nodup ∧
      2 ≤ (dubMix.purgeDuplicates xs ++ dubMix.purgeDuplicates zs).length ∧
      (dubMix.purgeDuplicates xs ++ dubMix.purgeDuplicates zs).length ≤ 20 ∧
      (dubMix.Reachable d → d.x.isActive = true → d.z.isActive = true →
        (∀ v ∈ dubMix.purgeDuplicates xs, Even v) ∧
          (∀ v ∈ dubMix.purgeDuplicates zs, Odd v)) := by
  obtain ⟨bx, x', xs, r1, bz, z', zs, rest, px, pz, pd⟩ := dubMix_ping4 d hctl t1 t2 h1 h2
  obtain ⟨lx, _, _, _⟩ := ping_values _ _ _ _ _ _ _ px
  obtain ⟨lz, _, _, _⟩ := ping_values _ _ _ _ _ _ _ pz
  rw [List.length_replicate] at lx lz
  obtain ⟨nx, mx, ux, ox⟩ := purgeDuplicates_spec xs
  obtain ⟨nz, mz, uz, oz⟩ := purgeDuplicates_spec zs
  have hxne : xs ≠ [] := by
    intro he
    rw [he] at lx
    cases lx
  have hzne : zs ≠ [] := by
    intro he
    rw [he] at lz
    cases lz
  have ox' := ox hxne
  have oz' := oz hzne
  refine ⟨bx, bz, x', z', xs, zs, r1, rest, px, pz, pd, nx, nz,
    by rw [List.length_append]; omega, by rw [List.length_append]; omega, ?_⟩
  intro hd hx hz
  have hinv := inv_of_reachable d hd
  obtain ⟨gx, gz⟩ := inv_guards d hinv
  obtain ⟨⟨x1, _, _⟩, ⟨z1, _, _⟩⟩ := hinv
  obtain ⟨_, _, _, vx⟩ := ping_active_pinned _ _ _ _ _ _ _ (gx.trans hx) px
  obtain ⟨_, _, _, vz⟩ := ping_active_pinned _ _ _ _ _ _ _ (gz.trans hz) pz
  exact ⟨fun v hv => (vx v ((mx v).mp hv)).2.1 x1, fun v hv => (vz v ((mz v).mp hv)).2.2 z1⟩

theorem ctl4_purged_witness :
    ((freshDub.setCtl 4).ctl = 4 ∧
      10 ≤ accepted (freshDub.setCtl 4).x.dataset
        (againOf (freshDub.setCtl 4).x.controllerState) evenDraws ∧
      10 ≤ accepted (freshDub.setCtl 4).z.dataset
        (againOf (freshDub.setCtl 4).z.controllerState) oddDraws) ∧
    ∃ (bx bz : Bool) (x' z' : numMixer) (xs zs : List Int) (r1 rest : List Nat),
      (freshDub.setCtl 4).x.ping (List.replicate 10 0) (evenDraws ++ oddDraws) =
        .done (bx, x', xs, r1) ∧
      (freshDub.setCtl 4).z.ping (List.replicate 10 0) r1 = .done (bz, z', zs, rest) ∧
      (freshDub.setCtl 4).ping (evenDraws ++ oddDraws) =
        .done (dubMix.purgeDuplicates xs ++ dubMix.purgeDuplicates zs,
          ⟨(freshDub.setCtl 4).ctl, x', z'⟩, rest) ∧
      (dubMix.purgeDuplicates xs).Nodup ∧ (dubMix.purgeDuplicates zs).Nodup ∧
      2 ≤ (dubMix.purgeDuplicates xs ++ dubMix.purgeDuplicates zs).length ∧
      (dubMix.purgeDuplicates xs ++ dubMix.purgeDuplicates zs).length ≤ 20 ∧
      (dubMix.Reachable (freshDub.setCtl 4) → (freshDub.setCtl 4).x.isActive = true →
        (freshDub.setCtl 4).z.isActive = true →
        (∀ v ∈ dubMix.purgeDuplicates xs, Even v) ∧
          (∀ v ∈ dubMix.purgeDuplicates zs, Odd v)) :=
  ⟨⟨by decide, by decide, by decide⟩,
    ctl4_purged (freshDub.setCtl 4) (by decide) evenDraws oddDraws (by decide) (by decide)⟩

/-- C16: for every dubMix whose ctl is none of 1, 2, 3 and 4, ping returns the empty
sequence and leaves ctl and both owned mixers, their countdowns included, as they
were (the engine is not advanced either). -/
theorem ping_default_case (d : dubMix) (eng : List Nat)
    (h1 : d.ctl ≠ 1) (h2 : d.ctl ≠ 2) (h3 : d.ctl ≠ 3) (h4 : d.ctl ≠ 4) :
    d.ping eng = .done ([], d, eng) := by
  unfold dubMix.ping
  rw [if_neg h1, if_neg h2, if_neg h3, if_neg h4]

theorem ping_default_case_witness :
    ((freshDub.setCtl 7).ctl ≠ 1 ∧ (freshDub.setCtl 7).ctl ≠ 2 ∧ (freshDub.setCtl 7).ctl ≠ 3 ∧
      (freshDub.setCtl 7).ctl ≠ 4) ∧
    (freshDub.setCtl 7).ping evenDraws = .done ([], freshDub.setCtl 7, evenDraws) :=
  ⟨⟨by decide, by decide, by decide, by decide⟩,
    ping_default_case (freshDub.setCtl 7) evenDraws (by decide) (by decide) (by decide)
      (by decide)⟩

/-! ## multiMix: the switch of ping -/

theorem multiMix_ping_one (m : numMixer) (eng : List Nat) :
    multiMix.ping ⟨[m]⟩ eng =
      (multiMix.pingTop m [] .MIX eng).bind fun r =>
        .done (multiMix.purgePrimeNumbers r.1, r.2.1, r.2.2) := rfl

theorem multiMix_ping_two (m a : numMixer) (eng : List Nat) :
    multiMix.ping ⟨[m, a]⟩ eng = multiMix.pingTop m [a] .EVEN eng := rfl

theorem multiMix_ping_three (m a b : numMixer) (eng : List Nat) :
    multiMix.ping ⟨[m, a, b]⟩ eng = multiMix.pingTop m [a, b] .ODD eng := rfl

theorem pingTop_done (top : numMixer) (below : List numMixer) (state : OutputController)
    (eng rest : List Nat) (out : List Int) (mm' : multiMix)
    (h : multiMix.pingTop top below state eng = .done (out, mm', rest)) :
    ∃ (b : Bool) (t' : numMixer),
      (top.setControllerState state).ping (List.replicate 10 0) eng = .done (b, t', out, rest) ∧
      mm' = ⟨t' :: below⟩ := by
  simp only [multiMix.pingTop, Run.bind_eq_done, Run.done.injEq, Prod.mk.injEq] at h
  obtain ⟨⟨b, t', o, e⟩, hp, rfl, rfl, rfl⟩ := h
  exact ⟨b, t', hp, rfl⟩

theorem pingTop_of_ping (top t' : numMixer) (below : List numMixer) (state : OutputController)
    (eng rest : List Nat) (out : List Int) (b : Bool)
    (h : (top.setControllerState state).ping (List.replicate 10 0) eng =
      .done (b, t', out, rest)) :
    multiMix.pingTop top below state eng = .done (out, ⟨t' :: below⟩, rest) := by
  unfold multiMix.pingTop
  rw [h]
  rfl

theorem pingTop_returns (top : numMixer) (below : List numMixer) (state : OutputController)
    (eng : List Nat) (h : 10 ≤ accepted top.dataset (againOf state) eng) :
    ∃ (out : List Int) (mm' : multiMix) (rest : List Nat),
      multiMix.pingTop top below state eng = .done (out, mm', rest) := by
  obtain ⟨b, t', out, rest, hp⟩ := ping_returns (top.setControllerState state)
    (List.replicate 10 0) eng (by
      rw [List.length_replicate, (setControllerState_fields top state).1,
        setControllerState_controllerState]
      exact h)
  exact ⟨out, _, rest, pingTop_of_ping top t' below state eng rest out b hp⟩

/-! ## Claims on multiMix -/

/-- C17 (the code at the failing input): a multiMix holding four mixers, for
instance after addNumMixers(4).  Here `(4 - 1) mod 3` is 0, yet ping returns the
empty sequence and leaves the stack as it was, the mode and the countdown of
the top mixer included: the switch is on `size() - 1 % 3`, which is 3. -/
theorem ping_four_mixers (top m3 m2 m1 : numMixer) (eng : List Nat) :
    (4 - 1) % 3 = 0 ∧
      multiMix.ping ⟨[top, m3, m2, m1]⟩ eng = .done ([], ⟨[top, m3, m2, m1]⟩, eng) :=
  ⟨rfl, rfl⟩

/-- C18: for every multiMix holding exactly one numMixer, whatever its dataset and
countdown, every sequence ping returns has at most 10 values and none of them
is a member of the prime table; and ping does return, given ten draws when the
dataset is not empty, and without any draw when the mixer is inactive. -/
theorem ping_single_no_primes (m : numMixer) (eng : List Nat) :
    (∀ (out : List Int) (mm' : multiMix) (rest : List Nat),
      multiMix.ping ⟨[m]⟩ eng = .done (out, mm', rest) →
        out.length ≤ 10 ∧ ∀ v ∈ out, v ∉ PRIME_NUMBERS) ∧
    (m.dataset ≠ [] → 10 ≤ eng.length →
      ∃ (out : List Int) (mm' : multiMix) (rest : List Nat),
        multiMix.ping ⟨[m]⟩ eng = .done (out, mm', rest)) ∧
    (m.isActive = false →
      ∃ (out : List Int) (mm' : multiMix),
        multiMix.ping ⟨[m]⟩ eng = .done (out, mm', eng)) := by
  refine ⟨?_, ?_, ?_⟩
  · intro out mm' rest h
    rw [multiMix_ping_one] at h
    simp only [Run.bind_eq_done, Run.done.injEq, Prod.mk.injEq] at h
    obtain ⟨⟨o, mm1, e⟩, hp, rfl, _, _⟩ := h
    obtain ⟨b, t', hq, _⟩ := pingTop_done m [] .MIX eng e o mm1 hp
    obtain ⟨hlen, _⟩ := ping_values _ _ _ _ _ _ _ hq
    rw [List.length_replicate] at hlen
    obtain ⟨hle, hv⟩ := purgePrimeNumbers_spec o
    exact ⟨by simp only at hle ⊢; omega, fun v hmem => (hv v hmem).1⟩
  · intro hD hlen
    obtain ⟨out, mm1, rest, hp⟩ := pingTop_returns m [] .MIX eng
      (by rw [accepted_MIX m.dataset hD]; exact hlen)
    refine ⟨multiMix.purgePrimeNumbers out, mm1, rest, ?_⟩
    rw [multiMix_ping_one, hp]
    rfl
  · intro hina
    have hg : ((m.setControllerState .MIX).isActive &&
        (m.setControllerState .MIX).checkStateValid) = false := by
      have hc : (m.setControllerState .MIX).countDown = m.countDown :=
        (setControllerState_fields m .MIX).2.1
      simp only [numMixer.isActive, hc] at hina ⊢
      simp [hina]
    have hp := ping_of_guard_false (m.setControllerState .MIX) (List.replicate 10 0) eng hg
    refine ⟨multiMix.purgePrimeNumbers (List.replicate 10 0),
      ⟨[m.setControllerState .MIX]⟩, ?_⟩
    rw [multiMix_ping_one, pingTop_of_ping m _ [] .MIX eng eng _ false hp]
    rfl

theorem ping_single_no_primes_witness :
    multiMix.ping ⟨[pairMixer]⟩ [1, 1, 0, 1, 0, 0, 1, 1, 1, 0, 5] =
        .done ([1, 1, 1, 1], ⟨[⟨0, 9, true, true, [1, 2], .MIX⟩]⟩, [5]) ∧
      (([1, 1, 1, 1] : List Int).length ≤ 10 ∧ ∀ v ∈ ([1, 1, 1, 1] : List Int),
        v ∉ PRIME_NUMBERS) :=
  ⟨by decide,
    (ping_single_no_primes pairMixer [1, 1, 0, 1, 0, 0, 1, 1, 1, 0, 5]).1 [1, 1, 1, 1]
      ⟨[⟨0, 9, true, true, [1, 2], .MIX⟩]⟩ [5] (by decide)⟩

theorem generateDataset_returns (size : Nat) :
    ∀ eng : List Nat, size ≤ eng.length →
      ∃ (ds : List Int) (rest : List Nat),
        multiMix.generateDataset size eng = .done (ds, rest) ∧ ds.length = size ∧
        rest.length = eng.length - size ∧ ∀ v ∈ ds, 2 ≤ v ∧ v ≤ 100 := by
  induction size with
  | zero =>
    intro eng _
    exact ⟨[], eng, rfl, rfl, rfl, by simp⟩
  | succ n ih =>
    intro eng h
    cases eng with
    | nil => simp at h
    | cons raw eng =>
      rw [List.length_cons] at h
      obtain ⟨ds, rest, hg, hl, hr, hv⟩ := ih eng (by omega)
      refine ⟨((distr 2 100 raw : Nat) : Int) :: ds, rest, ?_, by simp [hl],
        by rw [List.length_cons]; omega, ?_⟩
      · unfold multiMix.generateDataset
        rw [hg]
        rfl
      · intro v hmem
        rcases List.mem_cons.mp hmem with rfl | hmem
        · unfold distr
          omega
        · exact hv v hmem

theorem mkDataset_fresh (D : List Int) (raw : Nat) (eng : List Nat) :
    ∃ m : numMixer, numMixer.mkDataset D (raw :: eng) = .done (m, eng) ∧
      m.dataset = D ∧ m.controllerState = .MIX ∧ m.stateChangeCount = 0 ∧
      10 ≤ m.countDown ∧ m.countDown ≤ 20 ∧ flagsReflect m := by
  obtain ⟨m, hm, hd, he, ho⟩ := mkDataset_returns D raw eng
  have hm' := hm
  simp only [numMixer.mkDataset, Run.done.injEq, Prod.mk.injEq] at hm'
  obtain ⟨hm', _⟩ := hm'
  have hlo : (10 : Int) ≤ ((distr 10 20 raw : Nat) : Int) := by
    unfold distr
    omega
  have hhi : ((distr 10 20 raw : Nat) : Int) ≤ 20 := by
    unfold distr
    omega
  refine ⟨m, hm, hd, ?_, ?_, ?_, ?_, ?_⟩
  · rw [← hm']
  · rw [← hm']
  · rw [← hm']; exact hlo
  · rw [← hm']; exact hhi
  · exact ⟨by rw [hd]; exact he, by rw [hd]; exact ho⟩

theorem addNumMixers_three (mEng eng : List Nat) (h90 : 90 ≤ mEng.length)
    (h3 : 3 ≤ eng.length) :
    ∃ (top m2 m1 : numMixer) (mEng' eng' : List Nat),
      multiMix.addNumMixers 3 ⟨[]⟩ mEng eng = .done (⟨[top, m2, m1]⟩, mEng', eng') ∧
      top.dataset.length = 30 ∧ (∀ v ∈ top.dataset, 2 ≤ v ∧ v ≤ 100) ∧
      top.controllerState = .MIX ∧ 10 ≤ top.countDown ∧ flagsReflect top := by
  obtain ⟨d1, e1, g1, _, l1, _⟩ := generateDataset_returns 30 mEng (by omega)
  obtain ⟨d2, e2, g2, _, l2, _⟩ := generateDataset_returns 30 e1 (by omega)
  obtain ⟨d3, e3, g3, dl3, l3, dv3⟩ := generateDataset_returns 30 e2 (by omega)
  obtain ⟨r1, eng1, rfl⟩ : ∃ r1 eng1, eng = r1 :: eng1 := by
    cases eng with
    | nil => simp at h3
    | cons r1 eng1 => exact ⟨r1, eng1, rfl⟩
  obtain ⟨r2, eng2, rfl⟩ : ∃ r2 eng2, eng1 = r2 :: eng2 := by
    cases eng1 with
    | nil => simp at h3
    | cons r2 eng2 => exact ⟨r2, eng2, rfl⟩
  obtain ⟨r3, eng3, rfl⟩ : ∃ r3 eng3, eng2 = r3 :: eng3 := by
    cases eng2 with
    | nil => simp at h3
    | cons r3 eng3 => exact ⟨r3, eng3, rfl⟩
  obtain ⟨m1, c1, _⟩ := mkDataset_fresh d1 r1 (r2 :: r3 :: eng3)
  obtain ⟨m2, c2, _⟩ := mkDataset_fresh d2 r2 (r3 :: eng3)
  obtain ⟨top, c3, td, tc, _, tlo, _, tf⟩ := mkDataset_fresh d3 r3 eng3
  refine ⟨top, m2, m1, e3, eng3, ?_, by rw [td]; exact dl3, by rw [td]; exact dv3, tc, tlo, tf⟩
  simp only [multiMix.addNumMixers, g1, g2, g3, c1, c2, c3, Run.bind]

/-- C19 (counterexample): when the engine of multiMix yields the value 2 ninety
times, addNumMixers(3) on an empty multiMix pushes three mixers over thirty 2s;
ping then puts the top mixer in `ODD` mode, its ping fails (no odd value), and
the ten zeros of the buffer are returned, none of which is odd. -/
theorem add_three_all_even :
    multiMix.addNumMixers 3 ⟨[]⟩ (List.replicate 90 0) [0, 0, 0] =
        .done (⟨[allTwos, allTwos, allTwos]⟩, [], []) ∧
      multiMix.ping ⟨[allTwos, allTwos, allTwos]⟩ oddDraws =
        .done (List.replicate 10 0,
          ⟨[allTwos.setControllerState .ODD, allTwos, allTwos]⟩, oddDraws) ∧
      ¬ (∀ v ∈ List.replicate 10 (0 : Int), Odd v) := by
  refine ⟨by decide, by decide, by decide⟩

/-- C19 (amended): addNumMixers(3) on an empty multiMix returns once the engine of
multiMix has supplied 90 draws and the engine of numMixer 3, and the top mixer
then holds 30 values from 2 to 100.  If one of them is odd, ping (on every tape
that holds ten draws of an odd value) puts the top mixer in `ODD` mode and
returns 10 values, all odd.  If all 30 are even, ping still puts the top mixer
in `ODD` mode but returns ten zeros. -/
theorem add_three_then_ping (mEng eng : List Nat) (h90 : 90 ≤ mEng.length)
    (h3 : 3 ≤ eng.length) :
    ∃ (top m2 m1 : numMixer) (mEng' eng' : List Nat),
      multiMix.addNumMixers 3 ⟨[]⟩ mEng eng = .done (⟨[top, m2, m1]⟩, mEng', eng') ∧
      top.dataset.length = 30 ∧ (∀ v ∈ top.dataset, 2 ≤ v ∧ v ≤ 100) ∧
      ∀ tape : List Nat,
        ((∃ v ∈ top.dataset, Odd v) → 10 ≤ accepted top.dataset againOdd tape →
          ∃ (out : List Int) (t' : numMixer) (rest : List Nat),
            multiMix.ping ⟨[top, m2, m1]⟩ tape = .done (out, ⟨[t', m2, m1]⟩, rest) ∧
            t'.controllerState = .ODD ∧ out.length = 10 ∧ ∀ v ∈ out, Odd v) ∧
        ((∀ v ∈ top.dataset, Even v) →
          multiMix.ping ⟨[top, m2, m1]⟩ tape =
            .done (List.replicate 10 0, ⟨[top.setControllerState .ODD, m2, m1]⟩, tape) ∧
          (top.setControllerState .ODD).controllerState = .ODD) := by
  obtain ⟨top, m2, m1, mEng', eng', hadd, hlen, hrange, _, hlo, hfl⟩ :=
    addNumMixers_three mEng eng h90 h3
  refine ⟨top, m2, m1, mEng', eng', hadd, hlen, hrange, ?_⟩
  intro tape
  obtain ⟨hd, hc, _, ho⟩ := setControllerState_fields top .ODD
  have hs := setControllerState_controllerState top .ODD
  have hact : (top.setControllerState .ODD).isActive = true := by
    simp only [numMixer.isActive, hc]
    exact decide_eq_true (by omega)
  have hcv : (top.setControllerState .ODD).checkStateValid = top.oddValid := by
    simp only [numMixer.checkStateValid, hs, ho]
  refine ⟨?_, ?_⟩
  · intro hodd hacc
    have hg : ((top.setControllerState .ODD).isActive &&
        (top.setControllerState .ODD).checkStateValid) = true := by
      rw [hact, hcv, hfl.2.mpr hodd]
      rfl
    obtain ⟨out, rest, hp⟩ := ping_returns_true (top.setControllerState .ODD)
      (List.replicate 10 0) tape hg (by rw [List.length_replicate, hd, hs]; exact hacc)
    obtain ⟨_, _, lo, vo⟩ := ping_active_pinned _ _ _ _ _ _ _ hg hp
    rw [List.length_replicate] at lo
    refine ⟨out, { (top.setControllerState .ODD) with
      countDown := (top.setControllerState .ODD).countDown - 1 }, rest, ?_, hs, lo,
      fun v hv => (vo v hv).2.2 hs⟩
    rw [multiMix_ping_three]
    exact pingTop_of_ping top _ [m2, m1] .ODD tape rest out true hp
  · intro heven
    have hno : top.oddValid = false := by
      cases hv : top.oddValid with
      | false => rfl
      | true =>
        obtain ⟨x, hx, hxo⟩ := hfl.2.mp hv
        exact absurd (heven x hx) (Int.not_even_iff_odd.mpr hxo)
    have hg : ((top.setControllerState .ODD).isActive &&
        (top.setControllerState .ODD).checkStateValid) = false := by
      rw [hact, hcv, hno]
      rfl
    have hp := ping_of_guard_false (top.setControllerState .ODD) (List.replicate 10 0) tape hg
    refine ⟨?_, hs⟩
    rw [multiMix_ping_three]
    exact pingTop_of_ping top _ [m2, m1] .ODD tape tape _ false hp

theorem add_three_then_ping_witness :
    (90 ≤ (List.replicate 90 1).length ∧ 3 ≤ [0, 0, 0].length) ∧
    ∃ (top m2 m1 : numMixer) (mEng' eng' : List Nat),
      multiMix.addNumMixers 3 ⟨[]⟩ (List.replicate 90 1) [0, 0, 0] =
        .done (⟨[top, m2, m1]⟩, mEng', eng') ∧
      top.dataset.length = 30 ∧ (∀ v ∈ top.dataset, 2 ≤ v ∧ v ≤ 100) ∧
      ∀ tape : List Nat,
        ((∃ v ∈ top.dataset, Odd v) → 10 ≤ accepted top.dataset againOdd tape →
          ∃ (out : List Int) (t' : numMixer) (rest : List Nat),
            multiMix.ping ⟨[top, m2, m1]⟩ tape = .done (out, ⟨[t', m2, m1]⟩, rest) ∧
            t'.controllerState = .ODD ∧ out.length = 10 ∧ ∀ v ∈ out, Odd v) ∧
        ((∀ v ∈ top.dataset, Even v) →
          multiMix.ping ⟨[top, m2, m1]⟩ tape =
            .done (List.replicate 10 0, ⟨[top.setControllerState .ODD, m2, m1]⟩, tape) ∧
          (top.setControllerState .ODD).controllerState = .ODD) :=
  ⟨⟨by decide, by decide⟩,
    add_three_then_ping (List.replicate 90 1) [0, 0, 0] (by decide) (by decide)⟩

/-- C20 (counterexample): a multiMix holding two copies of `numMixer({1})`.  ping
sets the top mixer to `EVEN`, the ping of the top mixer returns false (no even
value), and multiMix::ping returns the ten zeros of its buffer, not an empty
result. -/
theorem failed_top_ping_returns_zeros :
    (oddOnly.setControllerState .EVEN).ping (List.replicate 10 0) evenDraws =
        .done (false, oddOnly.setControllerState .EVEN, List.replicate 10 0, evenDraws) ∧
      multiMix.ping ⟨[oddOnly, oddOnly]⟩ evenDraws =
        .done (List.replicate 10 0, ⟨[oddOnly.setControllerState .EVEN, oddOnly]⟩, evenDraws) ∧
      List.replicate 10 (0 : Int) ≠ [] := by
  refine ⟨by decide, by decide, by decide⟩

/-- C20 (amended): for a multiMix holding one, two or three mixers, when the ping of
the top mixer (set to `MIX`, `EVEN` or `ODD` respectively) returns false,
multiMix::ping drops that flag and returns the ten zeros of its zero-initialised
buffer (with one mixer after the prime filter, which removes no zero); only
the mode of the top mixer has changed and the engine is not advanced. -/
theorem top_failure_not_propagated (top a b : numMixer) (eng : List Nat) :
    (∀ (t' : numMixer) (buf : List Int) (rest : List Nat),
      (top.setControllerState .MIX).ping (List.replicate 10 0) eng =
        .done (false, t', buf, rest) →
      multiMix.ping ⟨[top]⟩ eng =
        .done (List.replicate 10 0, ⟨[top.setControllerState .MIX]⟩, eng)) ∧
    (∀ (t' : numMixer) (buf : List Int) (rest : List Nat),
      (top.setControllerState .EVEN).ping (List.replicate 10 0) eng =
        .done (false, t', buf, rest) →
      multiMix.ping ⟨[top, a]⟩ eng =
        .done (List.replicate 10 0, ⟨[top.setControllerState .EVEN, a]⟩, eng)) ∧
    (∀ (t' : numMixer) (buf : List Int) (rest : List Nat),
      (top.setControllerState .ODD).ping (List.replicate 10 0) eng =
        .done (false, t', buf, rest) →
      multiMix.ping ⟨[top, a, b]⟩ eng =
        .done (List.replicate 10 0, ⟨[top.setControllerState .ODD, a, b]⟩, eng)) := by
  refine ⟨?_, ?_, ?_⟩
  · intro t' buf rest h
    have hp := ping_of_guard_false _ (List.replicate 10 0) eng
      (ping_done_false _ _ _ _ _ _ h).1
    rw [multiMix_ping_one, pingTop_of_ping top _ [] .MIX eng eng _ false hp]
    show Run.done (multiMix.purgePrimeNumbers (List.replicate 10 0), _, _) = _
    rw [purgePrimeNumbers_zeros]
  · intro t' buf rest h
    have hp := ping_of_guard_false _ (List.replicate 10 0) eng
      (ping_done_false _ _ _ _ _ _ h).1
    rw [multiMix_ping_two]
    exact pingTop_of_ping top _ [a] .EVEN eng eng _ false hp
  · intro t' buf rest h
    have hp := ping_of_guard_false _ (List.replicate 10 0) eng
      (ping_done_false _ _ _ _ _ _ h).1
    rw [multiMix_ping_three]
    exact pingTop_of_ping top _ [a, b] .ODD eng eng _ false hp

theorem top_failure_not_propagated_witness :
    (evenOnly.setControllerState .ODD).ping (List.replicate 10 0) oddDraws =
        .done (false, evenOnly.setControllerState .ODD, List.replicate 10 0, oddDraws) ∧
      multiMix.ping ⟨[evenOnly, pairMixer, oddOnly]⟩ oddDraws =
        .done (List.replicate 10 0,
          ⟨[evenOnly.setControllerState .ODD, pairMixer, oddOnly]⟩, oddDraws) :=
  ⟨by decide,
    (top_failure_not_propagated evenOnly pairMixer oddOnly oddDraws).2.2
      (evenOnly.setControllerState .ODD) (List.replicate 10 0) oddDraws (by decide)⟩

/-! ## multiMix: the stack -/

theorem addNumMixers_returns (k : Nat) :
    ∀ (mm : multiMix) (mEng eng : List Nat), 30 * k ≤ mEng.length → k ≤ eng.length →
      ∃ (added : List numMixer) (mEng' eng' : List Nat),
        multiMix.addNumMixers k mm mEng eng =
          .done (⟨added ++ mm.numMixerStack⟩, mEng', eng') ∧
        added.length = k ∧
        ∀ m ∈ added, m.dataset.length = 30 ∧ (∀ v ∈ m.dataset, 2 ≤ v ∧ v ≤ 100) ∧
          m.controllerState = .MIX ∧ m.stateChangeCount = 0 ∧
          10 ≤ m.countDown ∧ m.countDown ≤ 20 := by
  induction k with
  | zero =>
    intro mm mEng eng _ _
    exact ⟨[], mEng, eng, rfl, rfl, by simp⟩
  | succ k ih =>
    intro mm mEng eng h1 h2
    obtain ⟨ds, e1, hg, hl, hr, hv⟩ := generateDataset_returns 30 mEng (by omega)
    obtain ⟨raw, eng1, rfl⟩ : ∃ raw eng1, eng = raw :: eng1 := by
      cases eng with
      | nil => simp at h2
      | cons raw eng1 => exact ⟨raw, eng1, rfl⟩
    rw [List.length_cons] at h2
    obtain ⟨m, hm, md, mc, ms, mlo, mhi, _⟩ := mkDataset_fresh ds raw eng1
    obtain ⟨added, mEng', eng', hadd, hlen, hall⟩ :=
      ih ⟨m :: mm.numMixerStack⟩ e1 eng1 (by omega) (by omega)
    refine ⟨added ++ [m], mEng', eng', ?_, by rw [List.length_append, hlen]; rfl, ?_⟩
    · unfold multiMix.addNumMixers
      rw [hg]
      simp only [Run.bind]
      rw [hm]
      simp only [hadd, List.append_assoc, List.singleton_append]
    · intro x hx
      rcases List.mem_append.mp hx with hx | hx
      · exact hall x hx
      · rw [List.mem_singleton] at hx
        subst hx
        exact ⟨by rw [md]; exact hl, by rw [md]; exact hv, mc, ms, mlo, mhi⟩

theorem removeNumMixers_eq (k : Nat) :
    ∀ mm : multiMix, k ≤ mm.numMixerStack.length →
      multiMix.removeNumMixers k mm = .done ⟨mm.numMixerStack.drop k⟩ := by
  induction k with
  | zero =>
    intro mm _
    rfl
  | succ k ih =>
    intro mm h
    obtain ⟨stack⟩ := mm
    cases stack with
    | nil => simp at h
    | cons top below =>
      simp only [List.length_cons] at h
      unfold multiMix.removeNumMixers
      exact ih ⟨below⟩ (by simp only; omega)

theorem pour_eq (src : List numMixer) :
    ∀ dst : List numMixer, multiMix.pour src dst = src.reverse ++ dst := by
  induction src with
  | nil =>
    intro dst
    rfl
  | cons top rest ih =>
    intro dst
    rw [multiMix.pour, ih, List.reverse_cons, List.append_assoc]
    rfl

theorem addAssign_stack (a b : multiMix) :
    (a.addAssign b).numMixerStack = b.numMixerStack ++ a.numMixerStack := by
  simp only [multiMix.addAssign, pour_eq, List.append_nil, List.reverse_reverse]

theorem ping_of_four (mm : multiMix) (eng : List Nat) (h : 4 ≤ mm.numMixerStack.length) :
    mm.ping eng = .done ([], mm, eng) := by
  obtain ⟨stack⟩ := mm
  match stack, h with
  | m1 :: m2 :: m3 :: m4 :: rest, _ => rfl

/-- C21: for every multiMix with n mixers and every count k, addNumMixers(k) returns
once the engine of multiMix has supplied 30 k draws and the engine of numMixer k
draws; the stack then holds the k new mixers on top of the old n, which are
unchanged, and each new mixer has a 30-element dataset with values from 2 to 100,
mode `MIX`, stateChangeCount 0 and a countDown from 10 to 20. -/
theorem addNumMixers_spec (k : Nat) (mm : multiMix) (mEng eng : List Nat)
    (h1 : 30 * k ≤ mEng.length) (h2 : k ≤ eng.length) :
    ∃ (added : List numMixer) (mm' : multiMix) (mEng' eng' : List Nat),
      multiMix.addNumMixers k mm mEng eng = .done (mm', mEng', eng') ∧
      mm'.numMixerStack = added ++ mm.numMixerStack ∧
      mm'.numMixerStack.length = mm.numMixerStack.length + k ∧
      mm'.numMixerStack.drop k = mm.numMixerStack ∧
      added.length = k ∧
      ∀ m ∈ added, m.dataset.length = 30 ∧ (∀ v ∈ m.dataset, 2 ≤ v ∧ v ≤ 100) ∧
        m.controllerState = .MIX ∧ m.stateChangeCount = 0 ∧
        10 ≤ m.countDown ∧ m.countDown ≤ 20 := by
  obtain ⟨added, mEng', eng', hadd, hlen, hall⟩ := addNumMixers_returns k mm mEng eng h1 h2
  refine ⟨added, ⟨added ++ mm.numMixerStack⟩, mEng', eng', hadd, rfl, ?_, ?_, hlen, hall⟩
  · simp only [List.length_append, hlen]
    omega
  · simp only
    rw [← hlen, List.drop_left]

theorem addNumMixers_spec_witness :
    (30 * 2 ≤ (List.replicate 60 1).length ∧ 2 ≤ [0, 5].length) ∧
    ∃ (added : List numMixer) (mm' : multiMix) (mEng' eng' : List Nat),
      multiMix.addNumMixers 2 ⟨[pairMixer]⟩ (List.replicate 60 1) [0, 5] =
        .done (mm', mEng', eng') ∧
      mm'.numMixerStack = added ++ (⟨[pairMixer]⟩ : multiMix).numMixerStack ∧
      mm'.numMixerStack.length = (⟨[pairMixer]⟩ : multiMix).numMixerStack.length + 2 ∧
      mm'.numMixerStack.drop 2 = (⟨[pairMixer]⟩ : multiMix).numMixerStack ∧
      added.length = 2 ∧
      ∀ m ∈ added, m.dataset.length = 30 ∧ (∀ v ∈ m.dataset, 2 ≤ v ∧ v ≤ 100) ∧
        m.controllerState = .MIX ∧ m.stateChangeCount = 0 ∧
        10 ≤ m.countDown ∧ m.countDown ≤ 20 :=
  ⟨⟨by decide, by decide⟩,
    addNumMixers_spec 2 ⟨[pairMixer]⟩ (List.replicate 60 1) [0, 5] (by decide) (by decide)⟩

/-- C22: for every multiMix with n mixers and every k with k at most n,
removeNumMixers(k) removes exactly the top k mixers and leaves the n - k below
them unchanged and in the same order; afterwards getNumMixerCount is n - k and
hasNumMixers is true iff n - k is positive. -/
theorem removeNumMixers_spec (mm : multiMix) (k : Nat) (h : k ≤ mm.numMixerStack.length) :
    ∃ mm' : multiMix, multiMix.removeNumMixers k mm = .done mm' ∧
      mm'.numMixerStack = mm.numMixerStack.drop k ∧
      mm.numMixerStack = mm.numMixerStack.take k ++ mm'.numMixerStack ∧
      (mm.numMixerStack.take k).length = k ∧
      mm'.getNumMixerCount = (mm.numMixerStack.length : Int) - k ∧
      (mm'.hasNumMixers = true ↔ 0 < mm.numMixerStack.length - k) := by
  refine ⟨⟨mm.numMixerStack.drop k⟩, removeNumMixers_eq k mm h, rfl,
    (List.take_append_drop k mm.numMixerStack).symm, ?_, ?_, ?_⟩
  · rw [List.length_take]
    omega
  · simp only [multiMix.getNumMixerCount, List.length_drop]
    omega
  · simp only [multiMix.hasNumMixers, List.length_drop, decide_eq_true_eq]
    omega

theorem removeNumMixers_spec_witness :
    2 ≤ (⟨[oddOnly, evenOnly, pairMixer]⟩ : multiMix).numMixerStack.length ∧
    ∃ mm' : multiMix,
      multiMix.removeNumMixers 2 ⟨[oddOnly, evenOnly, pairMixer]⟩ = .done mm' ∧
      mm'.numMixerStack = (⟨[oddOnly, evenOnly, pairMixer]⟩ : multiMix).numMixerStack.drop 2 ∧
      (⟨[oddOnly, evenOnly, pairMixer]⟩ : multiMix).numMixerStack =
        (⟨[oddOnly, evenOnly, pairMixer]⟩ : multiMix).numMixerStack.take 2 ++
          mm'.numMixerStack ∧
      ((⟨[oddOnly, evenOnly, pairMixer]⟩ : multiMix).numMixerStack.take 2).length = 2 ∧
      mm'.getNumMixerCount =
        ((⟨[oddOnly, evenOnly, pairMixer]⟩ : multiMix).numMixerStack.length : Int) - (2 : Nat) ∧
      (mm'.hasNumMixers = true ↔
        0 < (⟨[oddOnly, evenOnly, pairMixer]⟩ : multiMix).numMixerStack.length - 2) :=
  ⟨by decide, removeNumMixers_spec ⟨[oddOnly, evenOnly, pairMixer]⟩ 2 (by decide)⟩

/-- C23: for all multiMix values a and b, a += b (the two-pass inversion) gives the
same multiMix as the plain append of the specification: read bottom to top, the
stack of a afterwards is the old stack of a followed by the stack of b in the
bottom-to-top order of b; so the count is the sum of the two counts and the top
of b, when b has one, is the new top. -/
theorem addAssign_is_append (a b : multiMix) :
    a.addAssign b = multiMix.appendAll a b ∧
      (a.addAssign b).bottomToTop = a.bottomToTop ++ b.bottomToTop ∧
      (a.addAssign b).getNumMixerCount = a.getNumMixerCount + b.getNumMixerCount ∧
      (∀ (top : numMixer) (below : List numMixer), b.numMixerStack = top :: below →
        (a.addAssign b).numMixerStack = top :: (below ++ a.numMixerStack)) := by
  have hs := addAssign_stack a b
  refine ⟨?_, ?_, ?_, ?_⟩
  · have h2 : (multiMix.appendAll a b).numMixerStack = b.numMixerStack ++ a.numMixerStack := by
      simp [multiMix.appendAll, multiMix.bottomToTop]
    cases hab : a.addAssign b with
    | mk s1 =>
      cases hap : multiMix.appendAll a b with
      | mk s2 =>
        rw [hab] at hs
        rw [hap] at h2
        simp only at hs h2
        rw [hs, h2]
  · simp only [multiMix.bottomToTop, hs, List.reverse_append]
  · simp only [multiMix.getNumMixerCount, hs, List.length_append]
    push_cast
    ring
  · intro top below hb
    rw [hs, hb]
    rfl

theorem addAssign_is_append_witness :
    (⟨[oddOnly, pairMixer]⟩ : multiMix).numMixerStack = oddOnly :: [pairMixer] ∧
      ((⟨[evenOnly]⟩ : multiMix).addAssign ⟨[oddOnly, pairMixer]⟩).numMixerStack =
        oddOnly :: ([pairMixer] ++ (⟨[evenOnly]⟩ : multiMix).numMixerStack) :=
  ⟨rfl, (addAssign_is_append ⟨[evenOnly]⟩ ⟨[oddOnly, pairMixer]⟩).2.2.2 oddOnly [pairMixer] rfl⟩

/-- C24: for all numMixers a and b, after a += b the stateChangeCount and the
countDown of a are the sums of the values of the two operands, evenValid and
oddValid are the logical OR of the flags of the operands, the dataset is the old
dataset of a followed by the dataset of b, and the controller state of a is
unchanged. -/
theorem numMixer_addAssign_spec (a b : numMixer) :
    (a.addAssign b).stateChangeCount = a.stateChangeCount + b.stateChangeCount ∧
      (a.addAssign b).countDown = a.countDown + b.countDown ∧
      (a.addAssign b).evenValid = (a.evenValid || b.evenValid) ∧
      (a.addAssign b).oddValid = (a.oddValid || b.oddValid) ∧
      (a.addAssign b).dataset = a.dataset ++ b.dataset ∧
      (a.addAssign b).controllerState = a.controllerState :=
  ⟨rfl, rfl, rfl, rfl, rfl, rfl⟩

/-- C25: for all numMixers a and b the relational operators are decided by
countDown alone: a < b iff the countDown of a is below that of b, a > b iff
b < a, a <= b iff the countDown of a is at most that of b, a >= b iff it is at
least that of b; exactly one of a < b, a > b and equal countDowns holds; and
there are a and b with neither a < b nor a > b for which a == b is false. -/
theorem relational_operators :
    (∀ a b : numMixer,
      (numMixer.lt a b = true ↔ a.countDown < b.countDown) ∧
      (numMixer.gt a b = true ↔ numMixer.lt b a = true) ∧
      (numMixer.le a b = true ↔ a.countDown ≤ b.countDown) ∧
      (numMixer.ge a b = true ↔ a.countDown ≥ b.countDown) ∧
      (numMixer.lt a b = true ∨ numMixer.gt a b = true ∨ a.countDown = b.countDown) ∧
      ¬ (numMixer.lt a b = true ∧ numMixer.gt a b = true) ∧
      ¬ (numMixer.lt a b = true ∧ a.countDown = b.countDown) ∧
      ¬ (numMixer.gt a b = true ∧ a.countDown = b.countDown)) ∧
    (∃ a b : numMixer,
      numMixer.lt a b = false ∧ numMixer.gt a b = false ∧ numMixer.eq a b = false) := by
  refine ⟨?_, ⟨oddOnly, evenOnly, by decide, by decide, by decide⟩⟩
  intro a b
  simp only [numMixer.lt, numMixer.gt, numMixer.le, numMixer.ge, decide_eq_true_eq,
    Bool.not_eq_true', decide_eq_false_iff_not]
  refine ⟨?_, ?_, ?_, ?_, ?_, ?_, ?_, ?_⟩
  all_goals first | trivial | omega

/-- C30: the switch of multiMix::ping is on `size() - 1`: for every multiMix holding
four or more mixers, ping returns the empty sequence and leaves the whole stack
as it was, so the mode, the stateChangeCount and the countDown of the top mixer
are unchanged (the engine is not advanced either). -/
theorem ping_four_or_more (mm : multiMix) (eng : List Nat) (h : 4 ≤ mm.numMixerStack.length) :
    mm.numMixerStack.length - (1 % 3) = mm.numMixerStack.length - 1 ∧
      3 ≤ mm.numMixerStack.length - (1 % 3) ∧
      mm.ping eng = .done ([], mm, eng) :=
  ⟨rfl, by omega, ping_of_four mm eng h⟩

theorem ping_four_or_more_witness :
    4 ≤ (⟨[pairMixer.setControllerState .ODD, oddOnly, evenOnly, pairMixer, allTwos]⟩ :
        multiMix).numMixerStack.length ∧
      (⟨[pairMixer.setControllerState .ODD, oddOnly, evenOnly, pairMixer, allTwos]⟩ :
        multiMix).ping evenDraws =
      .done ([], ⟨[pairMixer.setControllerState .ODD, oddOnly, evenOnly, pairMixer, allTwos]⟩,
        evenDraws) :=
  ⟨by decide,
    (ping_four_or_more ⟨[pairMixer.setControllerState .ODD, oddOnly, evenOnly, pairMixer, allTwos]⟩
      evenDraws (by decide)).2.2⟩

/-! ## purgePrimeNumbers keeps the other elements -/

theorem take_swap_perm_split (L R : List Int) (x : Int) (m : Nat) (hm : m ≤ R.length) :
    ((L ++ x :: R).take (L.length + (m + 1))).Perm
      (x :: ((L ++ x :: R).set L.length ((L ++ x :: R).getD (L.length + m) 0)).take
        (L.length + m)) := by
  have hset : ∀ y : Int, (L ++ x :: R).set L.length y = L ++ y :: R := by
    intro y
    simp
  have hget : (L ++ x :: R).getD (L.length + m) 0 = (x :: R).getD m 0 := by
    simp [List.getD_eq_getElem?_getD, List.getElem?_append_right]
  have htake : (L ++ x :: R).take (L.length + (m + 1)) = L ++ x :: R.take m := by
    simp [List.take_append]
  rw [hset, hget, htake, List.take_append]
  cases m with
  | zero =>
    rw [List.perm_iff_count]
    intro a
    simp [List.count_append, List.count_cons]
  | succ n =>
    have hn : n < R.length := by omega
    have hy : (x :: R).getD (n + 1) 0 = R[n] := by
      simp [List.getD_eq_getElem?_getD, List.getElem?_eq_getElem hn]
    have ht : R.take (n + 1) = R.take n ++ [R[n]] := by
      rw [List.take_succ, List.getElem?_eq_getElem hn]
      rfl
    rw [hy]
    rw [List.perm_iff_count]
    intro a
    have hc : List.count a (R.take (n + 1)) =
        List.count a (R.take n) + (if R[n] = a then 1 else 0) := by
      rw [ht, List.count_append, List.count_singleton]
      simp only [beq_iff_eq]
    simp [List.count_append, List.count_cons]
    omega

theorem take_swap_perm (arr : List Int) (i newSize : Nat) (h1 : i < newSize)
    (h2 : newSize ≤ arr.length) :
    (arr.take newSize).Perm
      (arr.getD i 0 :: (arr.set i (arr.getD (newSize - 1) 0)).take (newSize - 1)) := by
  have hi : i < arr.length := by omega
  have hdec : arr = arr.take i ++ arr.getD i 0 :: arr.drop (i + 1) := by
    rw [List.getD_eq_getElem arr 0 hi, ← List.drop_eq_getElem_cons hi, List.take_append_drop]
  have hL : (arr.take i).length = i := by
    rw [List.length_take]
    omega
  have hR : newSize - (i + 1) ≤ (arr.drop (i + 1)).length := by
    rw [List.length_drop]
    omega
  have key := take_swap_perm_split (arr.take i) (arr.drop (i + 1)) (arr.getD i 0)
    (newSize - (i + 1)) hR
  rw [← hdec, hL] at key
  have e1 : i + (newSize - (i + 1) + 1) = newSize := by omega
  have e2 : i + (newSize - (i + 1)) = newSize - 1 := by omega
  rw [e1, e2] at key
  exact key

theorem purgePrimesLoop_perm (k : Nat) :
    ∀ (arr : List Int) (newSize : Nat), k ≤ newSize → newSize ≤ arr.length →
      (∀ p, k ≤ p → p < newSize → multiMix.isPrime (arr.getD p 0) = false) →
      ((multiMix.purgePrimesLoop k arr newSize).1.take
          (multiMix.purgePrimesLoop k arr newSize).2).Perm
        ((arr.take newSize).filter multiMix.notPrime) := by
  induction k with
  | zero =>
    intro arr newSize _ h2 H
    have hall : (arr.take newSize).filter multiMix.notPrime = arr.take newSize := by
      rw [List.filter_eq_self]
      intro a ha
      obtain ⟨p, hp, he⟩ := (mem_take_iff_getD arr newSize h2 a).mp ha
      rw [← he, multiMix.notPrime, H p (Nat.zero_le p) hp]
      rfl
    rw [hall]
    exact List.Perm.refl _
  | succ i ih =>
    intro arr newSize h1 h2 H
    unfold multiMix.purgePrimesLoop
    by_cases hf : multiMix.isPrime (arr.getD i 0) = true
    · rw [if_pos hf]
      have hk : i < arr.length := by omega
      have hself := getD_set_self arr i (arr.getD (newSize - 1) 0) hk
      have hne := fun p hp => getD_set_ne arr i p (arr.getD (newSize - 1) 0) hp
      have H' : ∀ p, i ≤ p → p < newSize - 1 →
          multiMix.isPrime ((arr.set i (arr.getD (newSize - 1) 0)).getD p 0) = false := by
        intro p hip hp
        by_cases hpe : p = i
        · subst hpe
          rw [hself]
          exact H (newSize - 1) (by omega) (by omega)
        · rw [hne p hpe]
          exact H p (by omega) (by omega)
      have hrec := ih (arr.set i (arr.getD (newSize - 1) 0)) (newSize - 1)
        (by omega) (by rw [List.length_set]; omega) H'
      refine hrec.trans ?_
      have hsw := (take_swap_perm arr i newSize (by omega) h2).filter multiMix.notPrime
      have hdrop : multiMix.notPrime (arr.getD i 0) = false := by
        rw [multiMix.notPrime, hf]
        rfl
      rw [List.filter_cons_of_neg (by rw [hdrop]; exact Bool.false_ne_true)] at hsw
      exact hsw.symm
    · rw [if_neg hf]
      apply ih arr newSize (by omega) h2
      intro p hip hp
      by_cases hpe : p = i
      · subst hpe
        simpa using hf
      · exact H p (by omega) hp

theorem purgePrimeNumbers_perm (arr : List Int) :
    (multiMix.purgePrimeNumbers arr).Perm (arr.filter multiMix.notPrime) := by
  have h := purgePrimesLoop_perm arr.length arr arr.length (Nat.le_refl _) (Nat.le_refl _)
    (by intro p h1 h2; omega)
  rw [List.take_length] at h
  exact h

theorem notPrime_eq (v : Int) : multiMix.notPrime v = decide (v ∉ PRIME_NUMBERS) := by
  by_cases h : v ∈ PRIME_NUMBERS
  · rw [multiMix.notPrime, (isPrime_eq_true_iff v).mpr h]
    simp [h]
  · have hp : multiMix.isPrime v = false := by
      cases hc : multiMix.isPrime v with
      | false => rfl
      | true => exact absurd ((isPrime_eq_true_iff v).mp hc) h
    rw [multiMix.notPrime, hp]
    simp [h]

/-! ## Claims on the purges and the prime table -/

/-- C26: for every integer sequence arr, the empty one and those of length 1
included, purgeDuplicates yields a sequence with no repeated value whose values
are exactly the values of arr; so its length is the number of distinct values
of arr. -/
theorem purgeDuplicates_distinct (arr : List Int) :
    (dubMix.purgeDuplicates arr).Nodup ∧
      (∀ v, v ∈ dubMix.purgeDuplicates arr ↔ v ∈ arr) ∧
      (dubMix.purgeDuplicates arr).length = arr.toFinset.card := by
  obtain ⟨hn, hm, _, _⟩ := purgeDuplicates_spec arr
  refine ⟨hn, hm, ?_⟩
  rw [← List.toFinset_card_of_nodup hn]
  congr 1
  ext v
  simp only [List.mem_toFinset]
  exact hm v

/-- C27: for every integer sequence arr, purgePrimeNumbers yields a sequence that
contains no member of the prime table and is a permutation of the elements of arr
that are not in the table, multiplicities kept; so its length is the number of
elements of arr that are not in the table. -/
theorem purgePrimeNumbers_keeps_rest (arr : List Int) :
    (∀ v ∈ multiMix.purgePrimeNumbers arr, v ∉ PRIME_NUMBERS) ∧
      (multiMix.purgePrimeNumbers arr).Perm
        (arr.filter fun v => decide (v ∉ PRIME_NUMBERS)) ∧
      (multiMix.purgePrimeNumbers arr).length =
        arr.countP fun v => decide (v ∉ PRIME_NUMBERS) := by
  have hfun : multiMix.notPrime = fun v => decide (v ∉ PRIME_NUMBERS) :=
    funext notPrime_eq
  have hperm := purgePrimeNumbers_perm arr
  rw [hfun] at hperm
  refine ⟨fun v hv => ((purgePrimeNumbers_spec arr).2 v hv).1, hperm, ?_⟩
  rw [List.countP_eq_length_filter]
  exact hperm.length_eq

/-! ## The binary search on a sorted range -/

theorem getD_lt_of_pairwise (range : List Int) (hs : range.Pairwise (· < ·)) (i j : Nat)
    (hij : i < j) (hj : j < range.length) : range.getD i 0 < range.getD j 0 := by
  rw [List.getD_eq_getElem range 0 (by omega : i < range.length),
    List.getD_eq_getElem range 0 hj]
  exact List.pairwise_iff_getElem.mp hs i j (by omega) hj hij

theorem lower_bound_spec (range : List Int) (val : Int) (hs : range.Pairwise (· < ·))
    (fuel : Nat) :
    ∀ first len : Nat, len ≤ fuel → first + len ≤ range.length →
      (∀ j, j < first → range.getD j 0 < val) →
      (∀ j, first + len ≤ j → j < range.length → val ≤ range.getD j 0) →
      lower_bound range val fuel first len ≤ range.length ∧
      (∀ j, j < lower_bound range val fuel first len → range.getD j 0 < val) ∧
      (∀ j, lower_bound range val fuel first len ≤ j → j < range.length →
        val ≤ range.getD j 0) := by
  induction fuel with
  | zero =>
    intro first len h1 h2 H1 H2
    have hl : len = 0 := by omega
    subst hl
    exact ⟨by simpa [lower_bound] using h2, H1, fun j hj hjl => H2 j (by simpa using hj) hjl⟩
  | succ fuel ih =>
    intro first len h1 h2 H1 H2
    unfold lower_bound
    by_cases hl : len = 0
    · rw [if_pos hl]
      subst hl
      exact ⟨by omega, H1, fun j hj hjl => H2 j (by omega) hjl⟩
    · rw [if_neg hl]
      have hmid : first + len / 2 < range.length := by omega
      by_cases hlt : range.getD (first + len / 2) 0 < val
      · rw [if_pos hlt]
        apply ih (first + len / 2 + 1) (len - len / 2 - 1) (by omega) (by omega)
        · intro j hj
          by_cases hjm : j = first + len / 2
          · rw [hjm]
            exact hlt
          · exact lt_trans (getD_lt_of_pairwise range hs j (first + len / 2) (by omega) hmid) hlt
        · intro j hj hjl
          exact H2 j (by omega) hjl
      · rw [if_neg hlt]
        apply ih first (len / 2) (by omega) (by omega) H1
        intro j hj hjl
        by_cases hjm : j = first + len / 2
        · rw [hjm]
          exact not_lt.mp hlt
        · exact le_of_lt (lt_of_le_of_lt (not_lt.mp hlt)
            (getD_lt_of_pairwise range hs (first + len / 2) j (by omega) hjl))

theorem bisect_eq_contains (range : List Int) (hs : range.Pairwise (· < ·)) (val : Int) :
    bisect range val = binary_search range val := by
  obtain ⟨r1, r2, r3⟩ := lower_bound_spec range val hs range.length 0 range.length
    (Nat.le_refl _) (by omega) (by intro j hj; omega) (by intro j h1 h2; omega)
  have hcm : binary_search range val = true ↔ val ∈ range := by
    simp [binary_search]
  have hiff : bisect range val = true ↔ binary_search range val = true := by
    rw [hcm]
    simp only [bisect, Bool.and_eq_true, decide_eq_true_eq, Bool.not_eq_true',
      decide_eq_false_iff_not, not_lt]
    constructor
    · rintro ⟨hne, hle⟩
      have hlt : lower_bound range val range.length 0 range.length < range.length := by omega
      have hge := r3 _ (Nat.le_refl _) hlt
      have heq : range.getD (lower_bound range val range.length 0 range.length) 0 = val :=
        le_antisymm hle hge
      rw [← heq]
      exact getD_mem_of_lt range _ hlt
    · intro hmem
      obtain ⟨j, hj, hv⟩ := (mem_iff_getD range val).mp hmem
      have hrj : lower_bound range val range.length 0 range.length ≤ j := by
        by_contra hcon
        have := r2 j (by omega)
        omega
      refine ⟨by omega, ?_⟩
      by_cases hjr : lower_bound range val range.length 0 range.length = j
      · rw [hjr, hv]
      · have hlt := getD_lt_of_pairwise range hs
          (lower_bound range val range.length 0 range.length) j (by omega) hj
        have hge := r3 _ (Nat.le_refl _) (by omega)
        omega
  cases hb : bisect range val with
  | true => exact (hiff.mp hb).symm
  | false =>
    cases hc : binary_search range val with
    | false => rfl
    | true => rw [hiff.mpr hc] at hb; cases hb

theorem prime_table_sorted : PRIME_NUMBERS.Pairwise (· < ·) := by decide

theorem mem_prime_table_iff (n : Int) (h : n ≤ 100) :
    n ∈ PRIME_NUMBERS ↔ Nat.Prime n.toNat := by
  by_cases hneg : n < 0
  · have h0 : n.toNat = 0 := by omega
    rw [h0]
    simp only [PRIME_NUMBERS, List.mem_cons, List.mem_singleton, List.not_mem_nil, or_false]
    constructor
    · intro hm
      omega
    · intro hp
      exact absurd hp (by norm_num)
  · obtain ⟨k, rfl⟩ := Int.eq_ofNat_of_zero_le (by omega : 0 ≤ n)
    have hk : k ≤ 100 := by omega
    simp only [Int.toNat_ofNat]
    interval_cases k <;> simp [PRIME_NUMBERS] <;> norm_num

/-- C28: the table `_PRIME_NUMBERS` is strictly increasing, so the bisection of
`std::binary_search` on it is exact membership: isPrime(n) is true iff n is in
the table; and the table holds exactly the primes below 100: for every integer
n at most 100, isPrime(n) is true iff n is a prime number. -/
theorem prime_table :
    PRIME_NUMBERS.Pairwise (· < ·) ∧
      (∀ n : Int, bisect PRIME_NUMBERS n = binary_search PRIME_NUMBERS n) ∧
      (∀ n : Int, multiMix.isPrime n = true ↔ n ∈ PRIME_NUMBERS) ∧
      (∀ n : Int, n ≤ 100 → (multiMix.isPrime n = true ↔ Nat.Prime n.toNat)) :=
  ⟨prime_table_sorted, bisect_eq_contains PRIME_NUMBERS prime_table_sorted,
    isPrime_eq_true_iff,
    fun n h => (isPrime_eq_true_iff n).trans (mem_prime_table_iff n h)⟩

theorem prime_table_witness :
    (97 : Int) ≤ 100 ∧ (multiMix.isPrime 97 = true ↔ Nat.Prime (97 : Int).toNat) :=
  ⟨by decide, prime_table.2.2.2 97 (by decide)⟩

/-! ## Values the rejection loop can accept -/

theorem againOdd_eq_false_iff (v : Int) : againOdd v = false ↔ Odd v ∧ 0 ≤ v := by
  have h1 : againOdd v = false ↔ v.tmod 2 = 1 := by
    simp [againOdd]
  rw [h1]
  constructor
  · intro h
    refine ⟨odd_of_tmod_two_eq_one v h, ?_⟩
    by_contra hneg
    obtain ⟨n, rfl⟩ := Int.eq_negSucc_of_lt_zero (by omega : v < 0)
    have hle : (Int.negSucc n).tmod 2 = -(((n + 1) % 2 : Nat) : Int) := rfl
    omega
  · rintro ⟨hodd, hpos⟩
    rw [Int.tmod_eq_emod hpos (by decide)]
    exact Int.odd_iff.mp hodd

theorem redraw_never (D : List Int) (ag : Int → Bool) (hall : ∀ v ∈ D, ag v = true)
    (hD : D ≠ []) (eng : List Nat) :
    ∀ i : Nat, i < D.length → redraw D ag i eng = .starved := by
  induction eng with
  | nil =>
    intro i hi
    have hv := hall D[i] (List.getElem_mem hi)
    simp [redraw, List.getElem?_eq_getElem hi, hv]
  | cons raw eng ih =>
    intro i hi
    have hv := hall D[i] (List.getElem_mem hi)
    rw [redraw, List.getElem?_eq_getElem hi]
    simp only [hv, if_true]
    exact ih _ (distr_index_lt D hD raw)

theorem ping_starves (m : numMixer) (b : Int) (buf : List Int) (eng : List Nat)
    (hg : (m.isActive && m.checkStateValid) = true) (hD : m.dataset ≠ [])
    (hall : ∀ v ∈ m.dataset, againOf m.controllerState v = true) :
    m.ping (b :: buf) eng = .starved := by
  have hlen : ¬ m.dataset.length = 0 := by
    simpa [List.length_eq_zero] using hD
  have hgen : m.genRandNum eng = .starved := by
    unfold numMixer.genRandNum
    rw [if_neg hlen]
    cases eng with
    | nil => rfl
    | cons raw eng =>
      have hlt := distr_index_lt m.dataset hD raw
      cases hc : m.controllerState with
      | MIX =>
        rw [hc] at hall
        obtain ⟨v, hv⟩ := List.exists_mem_of_ne_nil m.dataset hD
        have := hall v hv
        simp [againOf] at this
      | EVEN =>
        rw [hc] at hall
        exact redraw_never m.dataset againEven hall hD eng _ hlt
      | ODD =>
        rw [hc] at hall
        exact redraw_never m.dataset againOdd hall hD eng _ hlt
  unfold numMixer.ping
  rw [if_pos hg]
  unfold numMixer.fill
  rw [hgen]
  rfl

theorem guard_gives_accepted_value (m : numMixer) (hf : flagsReflect m) (hD : m.dataset ≠ [])
    (hg : (m.isActive && m.checkStateValid) = true) :
    (m.controllerState ≠ .ODD → ∃ v ∈ m.dataset, againOf m.controllerState v = false) ∧
      (m.controllerState = .ODD →
        ((∃ v ∈ m.dataset, againOf m.controllerState v = false) ↔
          ∃ v ∈ m.dataset, Odd v ∧ 0 ≤ v)) := by
  obtain ⟨_, hcase⟩ := (guard_eq_true_iff m).mp hg
  refine ⟨?_, ?_⟩
  · intro hne
    rcases hcase with hc | ⟨hc, hev⟩ | ⟨hc, _⟩
    · obtain ⟨v, hv⟩ := List.exists_mem_of_ne_nil m.dataset hD
      exact ⟨v, hv, by rw [hc]; rfl⟩
    · obtain ⟨v, hv, he⟩ := hf.1.mp hev
      exact ⟨v, hv, by rw [hc]; exact (againEven_eq_false_iff v).mpr he⟩
    · exact absurd hc hne
  · intro hc
    rw [hc]
    constructor
    · rintro ⟨v, hv, ha⟩
      exact ⟨v, hv, (againOdd_eq_false_iff v).mp ha⟩
    · rintro ⟨v, hv, ho⟩
      exact ⟨v, hv, (againOdd_eq_false_iff v).mpr ho⟩

/-- C29 (the code at the failing input): the object `numMixer({-1, 2})` has a
non-empty dataset, and in `ODD` mode the test at the head of ping passes
(`oddValid` is set, the countdown is 10); yet the loop test of genRandNum,
`_dataset[i] % 2 != 1`, holds of both values, so no value of the dataset is
accepted and a ping on a non-empty buffer returns on no tape. -/
theorem odd_guard_no_accepted_value :
    numMixer.mkDataset [-1, 2] [0] = .done (minusOne, []) ∧
      (minusOne.setControllerState .ODD).dataset ≠ [] ∧
      ((minusOne.setControllerState .ODD).isActive &&
        (minusOne.setControllerState .ODD).checkStateValid) = true ∧
      (∀ v ∈ (minusOne.setControllerState .ODD).dataset,
        againOf (minusOne.setControllerState .ODD).controllerState v = true) ∧
      ∀ (b : Int) (buf : List Int) (eng : List Nat),
        (minusOne.setControllerState .ODD).ping (b :: buf) eng = .starved := by
  have h2 : (minusOne.setControllerState .ODD).dataset ≠ [] := by decide
  have h3 : ((minusOne.setControllerState .ODD).isActive &&
      (minusOne.setControllerState .ODD).checkStateValid) = true := by decide
  have h4 : ∀ v ∈ (minusOne.setControllerState .ODD).dataset,
      againOf (minusOne.setControllerState .ODD).controllerState v = true := by decide
  exact ⟨by decide, h2, h3, h4, fun b buf eng => ping_starves _ b buf eng h3 h2 h4⟩

/-! ## purgeDuplicates and the first occurrences -/

theorem firstOccurrencesFrom_spec (arr : List Int) :
    ∀ seen : List Int, (firstOccurrencesFrom seen arr).Nodup ∧
      ∀ v, v ∈ firstOccurrencesFrom seen arr ↔ v ∈ arr ∧ v ∉ seen := by
  induction arr with
  | nil =>
    intro seen
    simp [firstOccurrencesFrom]
  | cons a rest ih =>
    intro seen
    unfold firstOccurrencesFrom
    by_cases ha : a ∈ seen
    · rw [if_pos ha]
      obtain ⟨hn, hm⟩ := ih seen
      refine ⟨hn, fun v => ?_⟩
      rw [hm v, List.mem_cons]
      constructor
      · rintro ⟨h1, h2⟩
        exact ⟨Or.inr h1, h2⟩
      · rintro ⟨h1 | h1, h2⟩
        · exact absurd (h1 ▸ ha) h2
        · exact ⟨h1, h2⟩
    · rw [if_neg ha]
      obtain ⟨hn, hm⟩ := ih (a :: seen)
      refine ⟨?_, fun v => ?_⟩
      · rw [List.nodup_cons]
        refine ⟨?_, hn⟩
        intro hmem
        exact ((hm a).mp hmem).2 (List.mem_cons_self a seen)
      · rw [List.mem_cons, hm v, List.mem_cons, List.mem_cons]
        constructor
        · rintro (h1 | ⟨h1, h2⟩)
          · exact ⟨Or.inl h1, h1 ▸ ha⟩
          · exact ⟨Or.inr h1, fun h => h2 (Or.inr h)⟩
        · rintro ⟨h1 | h1, h2⟩
          · exact Or.inl h1
          · by_cases hva : v = a
            · exact Or.inl hva
            · refine Or.inr ⟨h1, ?_⟩
              rintro (h | h)
              · exact hva h
              · exact h2 h

theorem purgeDuplicates_perm_firstOccurrences (arr : List Int) :
    (dubMix.purgeDuplicates arr).Perm (firstOccurrences arr) := by
  obtain ⟨hn, hm, _, _⟩ := purgeDuplicates_spec arr
  obtain ⟨fn, fm⟩ := firstOccurrencesFrom_spec arr []
  show (dubMix.purgeDuplicates arr).Perm (firstOccurrencesFrom [] arr)
  rw [List.perm_ext_iff_of_nodup hn fn]
  intro v
  rw [hm v, fm v]
  simp

/-- C31: purgeDuplicates is not the order-preserving dedup: on [1, 1, 2, 3] it
yields [1, 3, 2] while the list of first occurrences in original order is
[1, 2, 3], so there is an input on which the two differ. -/
theorem purgeDuplicates_not_first_occurrences :
    dubMix.purgeDuplicates [1, 1, 2, 3] = [1, 3, 2] ∧
      firstOccurrences [1, 1, 2, 3] = [1, 2, 3] ∧
      ∃ arr : List Int, dubMix.purgeDuplicates arr ≠ firstOccurrences arr :=
  ⟨by decide, by decide, ⟨[1, 1, 2, 3], by decide⟩⟩

/-! ## A failed ping inside dubMix -/

theorem ctl1_inactive (d : dubMix) (eng : List Nat) (hctl : d.ctl = 1)
    (hx : d.x.countDown = 0) :
    d.x.ping (List.replicate 10 0) eng = .done (false, d.x, List.replicate 10 0, eng) ∧
      d.ping eng = .done (List.replicate 10 0, d, eng) := by
  have hg : (d.x.isActive && d.x.checkStateValid) = false := by
    simp [numMixer.isActive, hx]
  have hp := ping_of_guard_false d.x (List.replicate 10 0) eng hg
  refine ⟨hp, ?_⟩
  unfold dubMix.ping
  rw [if_pos hctl]
  unfold dubMix.ctl1
  rw [hp]
  rfl

/-- C32: for every dubMix whose `_x` is inactive (its countDown is 0), the ping of
`_x` returns false and leaves the buffer at its ten zeros; ping under ctl 1 drops
that flag and returns exactly those ten zeros, and the whole dubMix (and the
engine) is as it was.  What the caller receives is the vector alone. -/
theorem ctl1_inactive_returns_zeros (d : dubMix) (eng : List Nat) (hctl : d.ctl = 1)
    (hx : d.x.countDown = 0) :
    d.x.isActive = false ∧
      d.x.ping (List.replicate 10 0) eng = .done (false, d.x, List.replicate 10 0, eng) ∧
      d.ping eng = .done (List.replicate 10 0, d, eng) ∧
      (List.replicate 10 (0 : Int)).length = 10 ∧
      ∀ v ∈ List.replicate 10 (0 : Int), v = 0 := by
  obtain ⟨h1, h2⟩ := ctl1_inactive d eng hctl hx
  refine ⟨by simp [numMixer.isActive, hx], h1, h2, List.length_replicate 10 0, ?_⟩
  intro v hv
  exact List.eq_of_mem_replicate hv

theorem ctl1_inactive_returns_zeros_witness :
    (runDubCalls freshDub (.setCtl 1 :: List.replicate 10 .ping) (List.replicate 100 1) =
        .done (spentXDub, List.replicate 10 (List.replicate 10 2), []) ∧
      spentXDub.ctl = 1 ∧ spentXDub.x.countDown = 0) ∧
    (spentXDub.x.isActive = false ∧
      spentXDub.x.ping (List.replicate 10 0) evenDraws =
        .done (false, spentXDub.x, List.replicate 10 0, evenDraws) ∧
      spentXDub.ping evenDraws = .done (List.replicate 10 0, spentXDub, evenDraws) ∧
      (List.replicate 10 (0 : Int)).length = 10 ∧
      ∀ v ∈ List.replicate 10 (0 : Int), v = 0) :=
  ⟨⟨by decide, by decide, by decide⟩,
    ctl1_inactive_returns_zeros spentXDub evenDraws (by decide) (by decide)⟩

end P5
